import Mathlib

/-!
Verification of the metro-due-times core: the state reconciler, the journey
segmenter (trainer), the model serialization, and the arrival predictor.
Each TypeScript function is translated into an executable Lean definition;
timestamps are modelled as integer milliseconds since the epoch, with
calendar days of a fixed 24-hour length (the code manipulates `Date` objects
in a fixed-offset timezone).
-/

namespace MetroDueTimes

/-! ## Basic data model (src/types.ts, src/models.ts, src/utils.ts) -/

/-- An observation of a vehicle: `FullState` from models.ts.
`date` is milliseconds since the epoch. -/
structure FullState where
  state : String
  stationCode : String
  platform : Nat
  date : Int
  deriving Repr, DecidableEq, Inhabited

/-- `toLocationCode` from utils.ts: `${stationCode}_${platform}`. -/
def toLocationCode (stationCode : String) (platform : Nat) : String :=
  stationCode ++ "_" ++ toString platform

/-- The `locationCode` getter of `FullState`. -/
def FullState.locationCode (s : FullState) : String :=
  toLocationCode s.stationCode s.platform

/-- The `key` getter of `FullState`: `${state}-${locationCode}`. -/
def FullState.key (s : FullState) : String :=
  s.state ++ "-" ++ s.locationCode

/-- `parseLocation` from utils.ts: matches `^([A-Z]{3})(_(\d+))?$`, returning
the station code and the optional platform number. -/
def parseLocation (location : String) : Option (String × Option Nat) :=
  match location.data with
  | a :: b :: c :: rest =>
    if a.isUpper ∧ a.isAlpha ∧ b.isUpper ∧ b.isAlpha ∧ c.isUpper ∧ c.isAlpha then
      let station := String.mk [a, b, c]
      match rest with
      | [] => some (station, none)
      | d :: digits =>
        if d = '_' ∧ digits ≠ [] ∧ digits.all Char.isDigit then
          some (station, some (String.mk digits).toNat!)
        else none
    else none
  | _ => none

/-- Stations at which platforms are interchangeable (utils.ts). -/
def IGNORE_PLATFORM_STATIONS : List String := ["APT", "SHL", "SJM", "SSS", "PJC"]

/-- The five codes of the Monument station complex (utils.ts). -/
def MONUMENT_STATION_CODES : List String := ["MMT", "MTS", "MTW", "MTN", "MTE"]

/-- `locationsMatch` from utils.ts. -/
def locationsMatch (location1 location2 : String) : Bool :=
  if location1 = location2 then true
  else
    match parseLocation location1, parseLocation location2 with
    | some p1, some p2 =>
      if p1.2.isSome ∧ p2.2.isSome ∧ p1.2 ≠ p2.2 ∧ p1.1 ∉ IGNORE_PLATFORM_STATIONS then
        false
      else if p1.1 = p2.1 then true
      else decide (p1.1 ∈ MONUMENT_STATION_CODES ∧ p2.1 ∈ MONUMENT_STATION_CODES)
    | _, _ => false

/-- `toSecondsSinceMidnight` from utils.ts, on fixed 24-hour days. -/
def toSecondsSinceMidnight (date : Int) : Int :=
  (date.emod 86400000).ediv 1000

/-! ## StateReconciler (FullState.fromActiveTrainHistoryStatus) -/

def TWELVE_HOURS_MS : Int := 12 * 60 * 60 * 1000

def DAY_MS : Int := 24 * 60 * 60 * 1000

/-- `geoDate.setHours(hours, minutes, 0, 0)` applied to a copy of the
heartbeat: keep the heartbeat's calendar date, substitute the time of day. -/
def setHoursMinutes (t h m : Int) : Int :=
  t - t.emod DAY_MS + h * 3600000 + m * 60000

/-- The day-shift adjustment of the coarse timestamp: shift by one day
whenever it differs from the heartbeat by strictly more than 12 hours. -/
def adjustGeoDate (heartbeatDate raw : Int) : Int :=
  let diff := raw - heartbeatDate
  if diff < -TWELVE_HOURS_MS then raw + DAY_MS
  else if diff > TWELVE_HOURS_MS then raw - DAY_MS
  else raw

/-- The full coarse-timestamp computation of
`FullState.fromActiveTrainHistoryStatus`. -/
def geoTimestamp (heartbeatDate h m : Int) : Int :=
  adjustGeoDate heartbeatDate (setHoursMinutes heartbeatDate h m)

/-- The precise signal: the parsed `timesAPI.lastEvent`. -/
structure TimesEvent where
  typ : String
  station : String
  platform : Nat
  time : Int
  deriving Repr, DecidableEq

/-- The coarse signal: the parsed `trainStatusesAPI.lastSeen`. -/
structure GeoData where
  state : String
  station : String
  platform : Nat
  hours : Int
  minutes : Int
  deriving Repr, DecidableEq

/-- The state normalization of `formatTimesApi`: lower-case, underscores to
spaces, capitalize the first letter. -/
def normalizeEventType (t : String) : String :=
  ((t.toLower).replace "_" " ").capitalize

/-- `formatTimesApi`: `sc` is the station-name-to-code directory
(`getStationCode`). -/
def formatTimesApi (sc : String → Nat → String) (e : TimesEvent) : FullState :=
  ⟨normalizeEventType e.typ, sc e.station e.platform, e.platform, e.time⟩

/-- `formatGeoApi`. -/
def formatGeoApi (sc : String → Nat → String) (g : GeoData) (date : Int) : FullState :=
  ⟨g.state, sc g.station g.platform, g.platform, date⟩

/-- `FullState.fromActiveTrainHistoryStatus`. A `none` result models the
`TypeError` raised by dereferencing the missing `timesAPI.lastEvent`:
when the coarse signal is absent the code formats the precise signal
without checking that it exists. -/
def fromActiveTrainHistoryStatus (sc : String → Nat → String)
    (timesApi : Option TimesEvent) (geo : Option GeoData)
    (heartbeatDate : Int) : Option FullState :=
  match geo with
  | none => timesApi.map (formatTimesApi sc)
  | some g =>
    let geoDate := geoTimestamp heartbeatDate g.hours g.minutes
    match timesApi with
    | none => some (formatGeoApi sc g geoDate)
    | some t =>
      if geoDate > t.time then some (formatGeoApi sc g geoDate)
      else some (formatTimesApi sc t)

/-! ## LocationGraph (src/network-graph.ts) -/

/-- The static network adjacency document, as an association list from a
location code to its adjacent location codes. -/
def Graph := List (String × List String)

/-- The adjacency list of a location (`network[from]`, absent key gives the
empty list). -/
def Graph.adj (g : Graph) (x : String) : List String :=
  (((g : List (String × List String)).find? (fun p => p.1 = x)).map Prod.snd).getD []

/-- `isAdjacent` from network-graph.ts. -/
def isAdjacent (g : Graph) (from_ to_ : String) : Bool :=
  (Graph.adj g from_).contains to_

/-- The path reconstruction of `shortestPath`: follow the predecessor map
from the found node back to (but excluding) the start, prepending each
step. Fuel bounds the walk; the code's walk is bounded by the visited set. -/
def buildPath (preds : List (String × String)) (from_ : String) :
    Nat → String → List String → List String
  | 0, _, acc => acc
  | fuel + 1, step, acc =>
    if step = from_ then acc
    else
      match (preds.find? (fun p => p.1 = step)).map Prod.snd with
      | some p => buildPath preds from_ fuel p (step :: acc)
      | none => step :: acc

/-- One BFS expansion of the neighbors of `current`: an `Except.error` is
the early return of a found path. -/
def bfsVisit (g : Graph) (from_ to_ current : String) (fuel : Nat) :
    List String → List (String × String) → List String → List String →
    Except (List String) (List (String × String) × List String × List String)
  | [], preds, visited, queue => .ok (preds, visited, queue)
  | n :: ns, preds, visited, queue =>
    if visited.contains n then bfsVisit g from_ to_ current fuel ns preds visited queue
    else
      let visited' := n :: visited
      let preds' := (n, current) :: preds
      if locationsMatch n to_ then .error (buildPath preds' from_ fuel n [])
      else bfsVisit g from_ to_ current fuel ns preds' visited' (queue ++ [n])

/-- The BFS loop of `shortestPath`. -/
def bfsLoop (g : Graph) (from_ to_ : String) :
    Nat → List String → List String → List (String × String) → Option (List String)
  | 0, _, _, _ => none
  | _ + 1, [], _, _ => none
  | fuel + 1, current :: queue, visited, preds =>
    match bfsVisit g from_ to_ current fuel (Graph.adj g current) preds visited queue with
    | .error path => some path
    | .ok (preds', visited', queue') => bfsLoop g from_ to_ fuel queue' visited' preds'

/-- `shortestPath` from network-graph.ts: breadth-first search from `from_`,
goal-tested with `locationsMatch`, returning the location sequence excluding
`from_` and including the found goal, or `none`. The fuel is an upper bound
on the number of dequeue steps, which the visited set keeps below the number
of distinct locations in the graph. -/
def shortestPath (g : Graph) (from_ to_ : String) : Option (List String) :=
  let fuel := (g.map (fun p => p.2.length)).sum + g.length + 1
  bfsLoop g from_ to_ fuel [from_] [from_] []

/-! ## JourneySegmenter / Trainer (src/trainer.ts) -/

/-- The consecutive-duplicate collapse of trainer.ts, written as the JS
`filter((code, index, arr) => index === 0 || code !== arr[index - 1])`:
each element is compared against its predecessor in the original array. -/
def collapseAux (prev : String) : List String → List String
  | [] => []
  | c :: rest => if c = prev then collapseAux c rest else c :: collapseAux c rest

/-- Collapse consecutive duplicate location codes (trainer.ts line 157). -/
def collapseJS : List String → List String
  | [] => []
  | c :: rest => c :: collapseAux c rest

/-- A recorded path-frequency sample: (from location, destination station,
path key). -/
abbrev PathSample := String × String × String

/-- A recorded destination-frequency sample: (starting location, current
location, destination location). -/
abbrev DestSample := String × String × String

/-- A recorded time-delta sample: (time-delta key, elapsed milliseconds). -/
abbrev DeltaSample := String × Int

/-- The `pathKey` computed for index `i` of the journey (trainer.ts lines
153-162): collapse the location codes of the slice from `i`, drop the head
(the `from` location) when more than one element remains, join with `->`. -/
def trainerPathCodes (j : List FullState) (i : Nat) : List String :=
  let codes := collapseJS ((j.drop i).map FullState.locationCode)
  if 1 < codes.length then codes.tail else codes

/-- The body of the `Arrived` analysis (trainer.ts lines 148-177) for one
index `i`: the optional path-frequency sample and the time-delta sample. -/
def arrivedRecordAt (j : List FullState) (to_ : FullState) (i : Nat) :
    Option PathSample × DeltaSample :=
  let from_ := j.getD i default
  let codes := trainerPathCodes j i
  let pathKey := String.intercalate "->" codes
  let pathSample :=
    if from_.locationCode ≠ codes.getD (codes.length - 1) "" then
      some (from_.locationCode, to_.stationCode, pathKey)
    else none
  (pathSample, (from_.key ++ "->" ++ pathKey, to_.date - from_.date))

/-- The full `Arrived` analysis: for every index up to the penultimate
entry, gated on the newest observation's state being `Arrived`. -/
def arrivedRecords (j : List FullState) (to_ : FullState) :
    List PathSample × List DeltaSample :=
  if to_.state = "Arrived" then
    let idxs := List.range (j.length - 1)
    (idxs.filterMap (fun i => (arrivedRecordAt j to_ i).1),
     idxs.map (fun i => (arrivedRecordAt j to_ i).2))
  else ([], [])

/-- The outcome of processing one reconciled observation. -/
structure TrainerStepOut where
  journey : List FullState
  destSamples : List DestSample
  pathSamples : List PathSample
  deltaSamples : List DeltaSample
  deriving Repr, DecidableEq

/-- Processing of one reconciled observation by the trainer main loop
(trainer.ts lines 110-179). The observation is pushed; with a previous
entry present, out-of-order and duplicate observations are popped again,
a non-adjacent location discards the whole journey, and a station seen
earlier in the journey records destination frequencies for every entry of
the journey and restarts it from the previous entry; finally an `Arrived`
state records paths and time deltas against the resulting journey. -/
def trainerStep (g : Graph) (journey : List FullState) (s : FullState) : TrainerStepOut :=
  let j := journey ++ [s]
  match journey.getLast? with
  | none => ⟨j, [], [], []⟩
  | some prev =>
    if s.date ≤ prev.date then ⟨journey, [], [], []⟩
    else if s.locationCode = prev.locationCode then
      if s.state = prev.state then ⟨journey, [], [], []⟩
      else ⟨j, [], (arrivedRecords j s).1, (arrivedRecords j s).2⟩
    else if ¬ isAdjacent g prev.locationCode s.locationCode then
      ⟨[], [], (arrivedRecords [] s).1, (arrivedRecords [] s).2⟩
    else if journey.any (fun past => past.stationCode = s.stationCode) then
      let first := j.headD default
      let dests := j.map (fun past => (first.locationCode, past.locationCode, prev.locationCode))
      let j' := [prev, s]
      ⟨j', dests, (arrivedRecords j' s).1, (arrivedRecords j' s).2⟩
    else ⟨j, [], (arrivedRecords j s).1, (arrivedRecords j s).2⟩

/-- The pairwise condition of the journey invariant: strictly increasing
timestamps, never identical state and location, and either the same
location or graph-adjacent locations. -/
def goodPair (g : Graph) (a b : FullState) : Bool :=
  (a.date < b.date) &&
  !(a.state = b.state ∧ a.locationCode = b.locationCode : Bool) &&
  ((a.locationCode = b.locationCode : Bool) || isAdjacent g a.locationCode b.locationCode)

/-- A Boolean chain of a relation over consecutive list elements. -/
def chainB (R : α → α → Bool) : List α → Bool
  | [] => true
  | [_] => true
  | a :: b :: rest => R a b && chainB R (b :: rest)

/-- The journey invariant of the spec's data model. -/
def journeyInv (g : Graph) (j : List FullState) : Prop :=
  chainB (goodPair g) j = true

/-! ### Spec-side renderings for the trainer claims -/

/-- Consecutive-duplicate removal as the spec describes it, by direct
recursion (to be compared with the code's index-based `collapseJS`). -/
def dedupConsecutive : List String → List String
  | [] => []
  | [a] => [a]
  | a :: b :: rest =>
    if a = b then dedupConsecutive (b :: rest) else a :: dedupConsecutive (b :: rest)

/-- The collapsed location-code sequence of the journey slice starting at
index `i`, as the spec words it. -/
def specCollapsed (j : List FullState) (i : Nat) : List String :=
  dedupConsecutive ((j.drop i).map FullState.locationCode)

/-- The spec's path key for index `i`: the collapsed sequence with the
`from` entry's own location removed whenever more than one element remains,
joined with `->`. -/
def specPathKey (j : List FullState) (i : Nat) : String :=
  let c := specCollapsed j i
  String.intercalate "->" (if 1 < c.length then c.tail else c)

/-! ## Persisted models as read by the Predictor (src/models.ts) -/

/-- `MedianTimeDeltas`: TimeDeltaKey → median delta in ms, as an association
list with JS `Map` lookup (first match). -/
abbrev MedianTimeDeltas := List (String × Int)

/-- `Map.get`. -/
def getMedian (m : MedianTimeDeltas) (k : String) : Option Int :=
  (m.find? (fun p => p.1 = k)).map Prod.snd

/-- `UsualPaths`: current location → destination station → path key. -/
abbrev UsualPaths := List (String × List (String × String))

/-- `UsualPaths.getUsualPathKey`. -/
def getUsualPathKey (up : UsualPaths) (from_ to_ : String) : Option String :=
  ((up.find? (fun p => p.1 = from_)).map Prod.snd).bind
    (fun inner => (inner.find? (fun p => p.1 = to_)).map Prod.snd)

/-- The JS `String.prototype.split("->")`: greedy left-to-right scan,
yielding `[""]` on the empty string and the whole string when the separator
does not occur. -/
def splitArrowAux : List Char → List Char → List String
  | [], cur => [String.mk cur.reverse]
  | '-' :: '>' :: rest, cur => String.mk cur.reverse :: splitArrowAux rest []
  | c :: rest, cur => splitArrowAux rest (c :: cur)

/-- `pathKey.split('->')`. -/
def splitArrow (s : String) : List String :=
  splitArrowAux s.data []

/-- `UsualPaths.getUsualPath`: the stored path key split on `->`. -/
def getUsualPath (up : UsualPaths) (from_ to_ : String) : Option (List String) :=
  (getUsualPathKey up from_ to_).map splitArrow

/-- `UsualDestinations`: starting location → current location → usual final
destination. -/
abbrev UsualDestinations := List (String × List (String × String))

/-- `UsualDestinations.getUsualDestination`. -/
def getUsualDestination (ud : UsualDestinations) (startingLocation currentLocation : String) :
    Option String :=
  ((ud.find? (fun p => p.1 = startingLocation)).map Prod.snd).bind
    (fun inner => (inner.find? (fun p => p.1 = currentLocation)).map Prod.snd)

deriving instance DecidableEq for Except

/-! ## Predictor (src/predictor.ts) -/

def PREDICTION_WINDOW : Int := 2 * 60 * 60 * 1000

def TIMETABLE_THRESHOLD : Int := 15 * 60

/-- One timetable entry, times in seconds since midnight; `none` models an
absent (`undefined`) field. -/
structure TimetableEntry where
  location : String
  destination : String
  arrivalTime : Option Int
  departureTime : Option Int
  deriving Repr, DecidableEq

/-- JS truthiness of an optional number (`undefined` and `0` are falsy). -/
def truthyNum : Option Int → Bool
  | none => false
  | some n => n ≠ 0

/-- JS falsiness of an optional string (`undefined`, `null` and `""`). -/
def jsFalsyStr : Option String → Bool
  | none => true
  | some s => s = ""

/-- The MTN→MTS / MTE→MTW canonicalization applied to a timetable
destination (predictor.ts lines 57-58). -/
def canonDest (d : String) : String :=
  if d = "MTN" then "MTS" else if d = "MTE" then "MTW" else d

/-- The station component of a timetable entry's parsed destination
(`parseLocation(entry.destination).station`). -/
def entryDestStation (e : TimetableEntry) : String :=
  ((parseLocation e.destination).map Prod.fst).getD ""

/-- An entry is considered by the timetable scan when its departure time is
defined and its location matches the current location. -/
def ttMatches (initialLocation : String) (e : TimetableEntry) : Bool :=
  e.departureTime.isSome && locationsMatch e.location initialLocation

/-- The scheduled time the scan compares against: the arrival time when
`useArrival` holds and the arrival time is truthy, else the departure
time (predictor.ts line 52). -/
def entryTimeJS (useArrival : Bool) (e : TimetableEntry) : Int :=
  if useArrival ∧ truthyNum e.arrivalTime then e.arrivalTime.getD 0
  else e.departureTime.getD 0

/-- The timetable scan of `predictNextArrivals` (lines 49-61): a left fold
threading `(smallestTimeDiff, destination)`; `parseLocation` failing on an
accepted entry's destination models the JS `TypeError` on
`parseLocation(entry.destination).station`. -/
def timetableFold (useArrival : Bool) (ssm : Int) (initialLocation : String) :
    List TimetableEntry → Int × Option String → Except String (Int × Option String)
  | [], acc => .ok acc
  | e :: rest, acc =>
    if ttMatches initialLocation e then
      let timeDiff := |entryTimeJS useArrival e - ssm|
      if timeDiff < acc.1 then
        match parseLocation e.destination with
        | none => .error "TypeError: cannot read station of undefined"
        | some (st, _) =>
          timetableFold useArrival ssm initialLocation rest (timeDiff, some (canonDest st))
      else timetableFold useArrival ssm initialLocation rest acc
    else timetableFold useArrival ssm initialLocation rest acc

/-- Destination resolution of `predictNextArrivals` (lines 44-69): an
explicit destination wins; else the nearest timetable entry within the
15-minute threshold; else the UsualDestinations model; else the
no-destination-found error. -/
def resolveDestination (ud : UsualDestinations) (timetable : List TimetableEntry)
    (initialState : FullState) (startingLocation initialLocation : String)
    (destination : Option String) : Except String String :=
  match destination with
  | some d => .ok d
  | none =>
    let useArrival := initialState.state = "Approaching" || initialState.state = "Arrived"
    let ssm := toSecondsSinceMidnight initialState.date
    match timetableFold useArrival ssm initialLocation timetable (TIMETABLE_THRESHOLD, none) with
    | .error e => .error e
    | .ok acc =>
      let d1 := if jsFalsyStr acc.2 then getUsualDestination ud startingLocation initialLocation
                else acc.2
      if jsFalsyStr d1 then
        .error ("No destination found for starting location " ++ startingLocation ++
          " and current location " ++ initialLocation)
      else .ok (d1.getD "")

/-- Path resolution (lines 71-72): the UsualPaths model, else
`shortestPath`, else the no-path-found error. -/
def resolvePath (up : UsualPaths) (g : Graph) (initialLocation destination : String) :
    Except String (List String) :=
  match getUsualPath up initialLocation destination with
  | some p => .ok p
  | none =>
    match shortestPath g initialLocation destination with
    | some p => .ok p
    | none => .error ("No path found from " ++ initialLocation ++ " to " ++ destination)

/-- The mutable state of the path walk: the current state key, the already
pathed locations, the buffer time, and the predictions so far. -/
structure WalkState where
  key : String
  pathed : List String
  buffer : Int
  preds : List (String × Int)
  deriving Repr, DecidableEq

/-- The median lookup key `[currentStateKey, ...pathed, nextLocation].join("->")`. -/
def legKey (key : String) (pathed : List String) (next : String) : String :=
  String.intercalate "->" (key :: (pathed ++ [next]))

/-- The fallback loop (lines 82-88): retry each already-pathed location,
most recent first, re-keyed as `Arrived`, paired with the remaining path
suffix; the first hit wins and also replaces the current state key. -/
def fallbackAux (m : MedianTimeDeltas) (pathed : List String) (next : String) :
    Nat → Option (String × Int)
  | 0 => none
  | i + 1 =>
    let key := "Arrived-" ++ pathed.getD i ""
    match getMedian m (legKey key (pathed.drop (i + 1)) next) with
    | some d => some (key, d)
    | none => fallbackAux m pathed next i

/-- The delta lookup for one leg: the primary key, else the fallback loop;
returns the (possibly re-keyed) state key together with the delta. -/
def foundDelta (m : MedianTimeDeltas) (key : String) (pathed : List String)
    (next : String) : Option (String × Int) :=
  match getMedian m (legKey key pathed next) with
  | some d => some (key, d)
  | none => fallbackAux m pathed next pathed.length

/-- One iteration of the walk loop (lines 78-104): look up the delta,
project the time, clamp to the heartbeat, cut at the prediction window;
`none` is the early `return predictions`. -/
def walkStep (m : MedianTimeDeltas) (initDate heartbeatDate : Int)
    (ws : WalkState) (next : String) : Option WalkState :=
  match foundDelta m ws.key ws.pathed next with
  | none => none
  | some (key', d) =>
    let t0 := initDate + ws.buffer + d
    let buffer' := if t0 < heartbeatDate then ws.buffer + (heartbeatDate - t0) else ws.buffer
    let t := if t0 < heartbeatDate then heartbeatDate else t0
    if t - heartbeatDate > PREDICTION_WINDOW then none
    else some ⟨key', ws.pathed ++ [next], buffer', ws.preds ++ [(next, t)]⟩

/-- The walk over the whole path; the Boolean reports whether the path was
fully exhausted (`false` is an early `return predictions` inside the loop). -/
def walkLegs (m : MedianTimeDeltas) (initDate heartbeatDate : Int) :
    WalkState → List String → WalkState × Bool
  | ws, [] => (ws, true)
  | ws, next :: rest =>
    match walkStep m initDate heartbeatDate ws next with
    | none => (ws, false)
    | some ws' => walkLegs m initDate heartbeatDate ws' rest

/-- The three loaded models of the `Predictor` class. -/
structure Predictor where
  medianPathTimes : MedianTimeDeltas
  usualPaths : UsualPaths
  usualDestinations : UsualDestinations

/-- `Predictor.predictNextArrivals`. Fuel bounds the leg-chaining
recursion, which the code leaves unbounded; exhausted fuel behaves like the
caught inner failure (no further legs). A prediction is a
`(locationCode, time)` pair. The early `return predictions` statements
inside the loop (`walkLegs` returning `false`) skip the recursive
continuation; only a fully exhausted path reaches it, and any error of the
recursive call is swallowed. -/
def predictNextArrivals (p : Predictor) (g : Graph) :
    Nat → Int → FullState → Option String → Option String → List TimetableEntry →
    Except String (List (String × Int))
  | 0, _, _, _, _, _ => .error "recursion fuel exhausted"
  | fuel + 1, heartbeatDate, initialState, startingLocation?, destination?, timetable =>
    let initialLocation := initialState.stationCode ++ "_" ++ toString initialState.platform
    let startingLocation := startingLocation?.getD initialLocation
    match resolveDestination p.usualDestinations timetable initialState
        startingLocation initialLocation destination? with
    | .error e => .error e
    | .ok destination =>
      match resolvePath p.usualPaths g initialLocation destination with
      | .error e => .error e
      | .ok path =>
        let r := walkLegs p.medianPathTimes initialState.date heartbeatDate
          ⟨initialState.state ++ "-" ++ initialLocation, [], 0, []⟩ path
        if r.2 then
          match path.getLast? with
          | none => .ok r.1.preds
          | some lastLocation =>
            match parseLocation lastLocation with
            | none => .error "TypeError: cannot destructure undefined"
            | some (station, platform) =>
              match predictNextArrivals p g fuel heartbeatDate
                  ⟨"Arrived", station, platform.getD 0,
                   (r.1.preds.getLast?.map Prod.snd).getD 0⟩
                  (some lastLocation) none timetable with
              | .ok more => .ok (r.1.preds ++ more)
              | .error _ => .ok r.1.preds
        else .ok r.1.preds

/-! ## Persisted model serialization (src/models.ts toJSON / fromJSON) -/

/-- A JSON value as produced by `JSON.parse`. -/
inductive Json where
  | null
  | bool (b : Bool)
  | num (n : Int)
  | str (s : String)
  | arr (elems : List Json)
  | obj (entries : List (String × Json))
  deriving Repr

/-- The JS `typeof` of a JSON value (`typeof null` is `"object"`). -/
def typeofJson : Json → String
  | .null => "object"
  | .bool _ => "boolean"
  | .num _ => "number"
  | .str _ => "string"
  | .arr _ => "object"
  | .obj _ => "object"

/-- Whether a JSON value is a plain object (not null, not an array). -/
def isJsObject : Json → Bool
  | .obj _ => true
  | _ => false

/-- Whether a JSON value is a number. -/
def isJsNum : Json → Bool
  | .num _ => true
  | _ => false

/-- Whether a JSON value is a string. -/
def isJsStr : Json → Bool
  | .str _ => true
  | _ => false

/-- JS `Map.prototype.set`: replace in place when the key exists, append
otherwise. -/
def jsSet {β : Type} (m : List (String × β)) (k : String) (v : β) :
    List (String × β) :=
  if (m.find? (fun p => p.1 = k)).isSome then
    m.map (fun p => if p.1 = k then (k, v) else p)
  else m ++ [(k, v)]

/-- `getOrSet(this, a, new Map()).set(b, c)` on a nested map
(`setUsualPath` / `setUsualDestination`). -/
def setUsual (m : List (String × List (String × String))) (a b c : String) :
    List (String × List (String × String)) :=
  if (m.find? (fun p => p.1 = a)).isSome then
    m.map (fun p => if p.1 = a then (a, jsSet p.2 b c) else p)
  else m ++ [(a, [(b, c)])]

/-- `MedianTimeDeltas.toJSON` (`Object.fromEntries`). -/
def MedianTimeDeltas.toJSON (m : MedianTimeDeltas) : Json :=
  Json.obj (m.map (fun p => (p.1, Json.num p.2)))

/-- The entry loop of `MedianTimeDeltas.fromJSON`. -/
def MTD_fromJSONAux : List (String × Json) → MedianTimeDeltas →
    Except String MedianTimeDeltas
  | [], acc => .ok acc
  | (k, v) :: rest, acc =>
    match v with
    | Json.num n => MTD_fromJSONAux rest (jsSet acc k n)
    | _ => .error ("Expected value to be a number, got " ++ typeofJson v)

/-- `MedianTimeDeltas.fromJSON`: null, non-object and array roots are
rejected with the source's messages. -/
def MedianTimeDeltas.fromJSON : Json → Except String MedianTimeDeltas
  | Json.null => .error "MedianTimeDeltas cannot be null"
  | Json.arr _ => .error "Expected MedianTimeDeltas to be a record, got an array"
  | Json.obj kvs => MTD_fromJSONAux kvs []
  | j => .error ("Expected MedianTimeDeltas to be an object, got " ++ typeofJson j)

/-- `UsualPaths.toJSON`. -/
def UsualPaths.toJSON (m : UsualPaths) : Json :=
  Json.obj (m.map (fun p =>
    (p.1, Json.obj (p.2.map (fun q => (q.1, Json.str q.2))))))

/-- The inner entry loop of `UsualPaths.fromJSON`. -/
def UP_fromJSONInner (from_ : String) : List (String × Json) → UsualPaths →
    Except String UsualPaths
  | [], acc => .ok acc
  | (to_, v) :: rest, acc =>
    match v with
    | Json.str path => UP_fromJSONInner from_ rest (setUsual acc from_ to_ path)
    | _ => .error ("Expected path to be a string, got " ++ typeofJson v)

/-- The outer entry loop of `UsualPaths.fromJSON`. -/
def UP_fromJSONOuter : List (String × Json) → UsualPaths → Except String UsualPaths
  | [], acc => .ok acc
  | (from_, v) :: rest, acc =>
    match v with
    | Json.null => .error ("UsualPaths[" ++ from_ ++ "] cannot be null")
    | Json.arr _ =>
      .error ("Expected UsualPaths[" ++ from_ ++ "] to be a record, got an array")
    | Json.obj inner =>
      match UP_fromJSONInner from_ inner acc with
      | .ok acc2 => UP_fromJSONOuter rest acc2
      | .error e => .error e
    | j =>
      .error ("Expected UsualPaths[" ++ from_ ++ "] to be an object, got " ++
        typeofJson j)

/-- `UsualPaths.fromJSON`. -/
def UsualPaths.fromJSON : Json → Except String UsualPaths
  | Json.null => .error "UsualPaths cannot be null"
  | Json.arr _ => .error "Expected UsualPaths to be a record, got an array"
  | Json.obj kvs => UP_fromJSONOuter kvs []
  | j => .error ("Expected UsualPaths to be an object, got " ++ typeofJson j)

/-- `UsualDestinations.toJSON`. -/
def UsualDestinations.toJSON (m : UsualDestinations) : Json :=
  Json.obj (m.map (fun p =>
    (p.1, Json.obj (p.2.map (fun q => (q.1, Json.str q.2))))))

/-- The inner entry loop of `UsualDestinations.fromJSON`. -/
def UD_fromJSONInner (startingLocation : String) :
    List (String × Json) → UsualDestinations → Except String UsualDestinations
  | [], acc => .ok acc
  | (currentLocation, v) :: rest, acc =>
    match v with
    | Json.str destination =>
      UD_fromJSONInner startingLocation rest
        (setUsual acc startingLocation currentLocation destination)
    | _ => .error ("Expected destination to be a string, got " ++ typeofJson v)

/-- The outer entry loop of `UsualDestinations.fromJSON`. -/
def UD_fromJSONOuter : List (String × Json) → UsualDestinations →
    Except String UsualDestinations
  | [], acc => .ok acc
  | (startingLocation, v) :: rest, acc =>
    match v with
    | Json.null =>
      .error ("UsualDestinations[" ++ startingLocation ++ "] cannot be null")
    | Json.arr _ =>
      .error ("Expected UsualDestinations[" ++ startingLocation ++
        "] to be a record, got an array")
    | Json.obj inner =>
      match UD_fromJSONInner startingLocation inner acc with
      | .ok acc2 => UD_fromJSONOuter rest acc2
      | .error e => .error e
    | j =>
      .error ("Expected UsualDestinations[" ++ startingLocation ++
        "] to be an object, got " ++ typeofJson j)

/-- `UsualDestinations.fromJSON`. -/
def UsualDestinations.fromJSON : Json → Except String UsualDestinations
  | Json.null => .error "UsualDestinations cannot be null"
  | Json.arr _ => .error "Expected UsualDestinations to be a record, got an array"
  | Json.obj kvs => UD_fromJSONOuter kvs []
  | j => .error ("Expected UsualDestinations to be an object, got " ++ typeofJson j)

/-- An inner value that some level of the nested deserializers rejects:
null, an array, a non-object, or an object with a non-string leaf. -/
def badNested (v : Json) : Prop :=
  isJsObject v = false ∨
  ∃ inner, v = Json.obj inner ∧ ∃ q ∈ inner, isJsStr q.2 = false

end MetroDueTimes

namespace MetroDueTimes

/-! ## Theorems: C8 and C10 -/

/-- **C8.** With both raw signals present the reconciler builds the coarse
timestamp from the heartbeat's calendar date with the coarse hour and minute
substituted, then shifts it by exactly one day toward the heartbeat iff the
difference from the heartbeat strictly exceeds 12 hours in magnitude (an
exact 12-hour difference is not shifted); the final coarse timestamp always
lies within 12 hours of the heartbeat, and a raw value of heartbeat minus
13 hours becomes heartbeat plus 11 hours. -/
theorem reconciler_geo_timestamp_within_twelve_hours
    (T h m : Int) (hh0 : 0 ≤ h) (hh : h ≤ 23) (hm0 : 0 ≤ m) (hm : m ≤ 59) :
    ((setHoursMinutes T h m - T < -TWELVE_HOURS_MS →
        geoTimestamp T h m = setHoursMinutes T h m + DAY_MS ∧
        setHoursMinutes T h m < T) ∧
     (setHoursMinutes T h m - T > TWELVE_HOURS_MS →
        geoTimestamp T h m = setHoursMinutes T h m - DAY_MS ∧
        T < setHoursMinutes T h m) ∧
     (-TWELVE_HOURS_MS ≤ setHoursMinutes T h m - T →
        setHoursMinutes T h m - T ≤ TWELVE_HOURS_MS →
        geoTimestamp T h m = setHoursMinutes T h m)) ∧
    (geoTimestamp T h m - T ≤ TWELVE_HOURS_MS ∧
     -TWELVE_HOURS_MS ≤ geoTimestamp T h m - T) ∧
    (setHoursMinutes T h m = T - 13 * 3600000 →
      geoTimestamp T h m = T + 11 * 3600000) := by
  have hmod0 : 0 ≤ T.emod DAY_MS := Int.emod_nonneg T (by norm_num [DAY_MS])
  have hmodlt : T.emod DAY_MS < DAY_MS := Int.emod_lt_of_pos T (by norm_num [DAY_MS])
  simp only [geoTimestamp, adjustGeoDate, setHoursMinutes, TWELVE_HOURS_MS,
    DAY_MS] at hmod0 hmodlt ⊢
  refine ⟨⟨?_, ?_, ?_⟩, ?_, ?_⟩ <;> (intros; split_ifs <;> omega)

/-- Witness for C8: heartbeat at 14:00 on day 1, coarse time 01:00, so the
raw coarse timestamp is heartbeat − 13h and the final one is heartbeat + 11h
(01:00 on day 2). -/
theorem reconciler_geo_timestamp_within_twelve_hours_witness :
    geoTimestamp (86400000 + 14 * 3600000) 1 0 =
      (86400000 + 14 * 3600000) + 11 * 3600000 :=
  (reconciler_geo_timestamp_within_twelve_hours (86400000 + 14 * 3600000) 1 0
    (by norm_num) (by norm_num) (by norm_num) (by norm_num)).2.2 (by decide)

/-- **C10.** The reconciler is total only when at least one raw signal is
present: with the coarse signal absent it formats the precise signal without
checking it exists, so the both-absent input reaches the undefined
dereference (modelled by `none`); with at least one signal present it always
produces an observation. -/
theorem reconciler_total_iff_some_signal (sc : String → Nat → String)
    (timesApi : Option TimesEvent) (geo : Option GeoData) (T : Int)
    (hsome : timesApi.isSome ∨ geo.isSome) :
    fromActiveTrainHistoryStatus sc none none T = none ∧
    (fromActiveTrainHistoryStatus sc timesApi geo T).isSome := by
  constructor
  · rfl
  · cases geo with
    | none =>
      cases timesApi with
      | none => simp at hsome
      | some t => simp [fromActiveTrainHistoryStatus]
    | some g =>
      cases timesApi with
      | none => simp [fromActiveTrainHistoryStatus]
      | some t =>
        simp only [fromActiveTrainHistoryStatus]
        split <;> simp

/-- Witness for C10: a concrete precise-only input yields an observation,
and the both-absent input yields the crash marker. -/
theorem reconciler_total_iff_some_signal_witness :
    fromActiveTrainHistoryStatus (fun s _ => s) none none 0 = none ∧
    (fromActiveTrainHistoryStatus (fun s _ => s)
      (some ⟨"ARRIVED", "MSN", 2, 1000⟩) none 0).isSome :=
  reconciler_total_iff_some_signal (fun s _ => s)
    (some ⟨"ARRIVED", "MSN", 2, 1000⟩) none 0 (Or.inl rfl)

/-! ## Theorems: the trainer (C1, C6, C7) -/

theorem chainB_append_last {α : Type} (R : α → α → Bool) (l : List α) (x : α)
    (hl : chainB R l = true) (h : ∀ y, l.getLast? = some y → R y x = true) :
    chainB R (l ++ [x]) = true := by
  induction l with
  | nil => rfl
  | cons a t ih =>
    cases t with
    | nil =>
      simp only [List.cons_append, List.nil_append, chainB, Bool.and_eq_true]
      exact ⟨h a rfl, True.intro⟩
    | cons b t' =>
      simp only [chainB, Bool.and_eq_true] at hl
      simp only [List.cons_append, chainB, Bool.and_eq_true]
      refine ⟨hl.1, ?_⟩
      exact ih hl.2 (fun y hy => h y (by rw [List.getLast?_cons_cons]; exact hy))

theorem getLast?_append_singleton {α : Type} (l : List α) (x : α) :
    (l ++ [x]).getLast? = some x := by
  simp

/-- **C7.** Each trainer step preserves the journey invariant (strictly
increasing timestamps; consecutive entries never share both state and
location; consecutive locations equal or graph-adjacent), and an
observation whose timestamp is not strictly after the last entry's is
dropped without changing the journey. -/
theorem trainer_step_preserves_invariant (g : Graph) (j : List FullState)
    (s : FullState) (hinv : journeyInv g j) :
    journeyInv g (trainerStep g j s).journey ∧
    (∀ prev, j.getLast? = some prev → s.date ≤ prev.date →
      (trainerStep g j s).journey = j ∧
      (trainerStep g j s).destSamples = [] ∧
      (trainerStep g j s).pathSamples = [] ∧
      (trainerStep g j s).deltaSamples = []) := by
  have hgood : ∀ y, ¬ s.date ≤ y.date →
      (s.locationCode = y.locationCode → ¬ s.state = y.state → goodPair g y s = true) ∧
      (¬ s.locationCode = y.locationCode →
        isAdjacent g y.locationCode s.locationCode = true → goodPair g y s = true) := by
    intro y hdate
    constructor
    · intro hloc hstate
      simp only [goodPair, Bool.and_eq_true, Bool.or_eq_true, decide_eq_true_eq,
        Bool.not_eq_true', decide_eq_false_iff_not]
      exact ⟨⟨by omega, fun hc => hstate hc.1.symm⟩, Or.inl hloc.symm⟩
    · intro hloc hadj
      simp only [goodPair, Bool.and_eq_true, Bool.or_eq_true, decide_eq_true_eq,
        Bool.not_eq_true', decide_eq_false_iff_not]
      exact ⟨⟨by omega, fun hc => hloc hc.2.symm⟩, Or.inr hadj⟩
  unfold trainerStep
  cases hj : j.getLast? with
  | none =>
    have : j = [] := List.getLast?_eq_none_iff.mp hj
    subst this
    exact ⟨rfl, fun prev hp => by simp at hp⟩
  | some prev =>
    by_cases hdate : s.date ≤ prev.date
    · simp only [if_pos hdate]
      exact ⟨hinv, fun p _ _ => by simp⟩
    · simp only [if_neg hdate]
      refine ⟨?_, fun p hp hle => False.elim (by cases hp; exact hdate hle)⟩
      by_cases hloc : s.locationCode = prev.locationCode
      · simp only [if_pos hloc]
        by_cases hstate : s.state = prev.state
        · simp only [if_pos hstate]; exact hinv
        · simp only [if_neg hstate]
          refine chainB_append_last _ _ _ hinv ?_
          intro y hy
          rw [hj] at hy
          cases hy
          exact ((hgood prev hdate).1 hloc hstate)
      · simp only [if_neg hloc]
        by_cases hadj : isAdjacent g prev.locationCode s.locationCode = true
        · rw [if_neg (by simp [hadj])]
          by_cases hseen : j.any (fun past => past.stationCode = s.stationCode) = true
          · rw [if_pos hseen]
            show chainB (goodPair g) [prev, s] = true
            simp only [chainB, Bool.and_eq_true]
            exact ⟨(hgood prev hdate).2 hloc hadj, True.intro⟩
          · rw [if_neg hseen]
            refine chainB_append_last _ _ _ hinv ?_
            intro y hy
            rw [hj] at hy
            cases hy
            exact ((hgood prev hdate).2 hloc hadj)
        · rw [if_pos (by simpa using hadj)]
          rfl

/-- Witness for C7: a concrete one-entry journey extended by an adjacent
arrival keeps the invariant. -/
theorem trainer_step_preserves_invariant_witness :
    journeyInv [("A_1", ["B_1"])]
      (trainerStep [("A_1", ["B_1"])] [⟨"Departed", "A", 1, 0⟩]
        ⟨"Arrived", "B", 1, 60000⟩).journey :=
  (trainer_step_preserves_invariant [("A_1", ["B_1"])] [⟨"Departed", "A", 1, 0⟩]
    ⟨"Arrived", "B", 1, 60000⟩ (by unfold journeyInv; decide)).1

/-- **C6.** When a new observation's location is graph-adjacent to the last
entry's but its station code already appears earlier in the journey, the
trainer records one destination-frequency sample per entry of the journey
(which at that point includes the new observation), keyed by the journey's
first location and with the previous entry's location as destination, and
then restarts the journey as `[previousEntry, newObservation]`. -/
theorem trainer_terminus_records_destinations (g : Graph)
    (journey : List FullState) (s prev : FullState)
    (hprev : journey.getLast? = some prev)
    (hdate : prev.date < s.date)
    (hloc : s.locationCode ≠ prev.locationCode)
    (hadj : isAdjacent g prev.locationCode s.locationCode = true)
    (hseen : journey.any (fun past => past.stationCode = s.stationCode) = true) :
    (trainerStep g journey s).destSamples =
      (journey ++ [s]).map (fun past =>
        (((journey ++ [s]).headD default).locationCode, past.locationCode,
          prev.locationCode)) ∧
    (trainerStep g journey s).journey = [prev, s] := by
  unfold trainerStep
  simp only [hprev]
  rw [if_neg (by omega), if_neg hloc, if_neg (by simp [hadj]), if_pos hseen]
  exact ⟨rfl, rfl⟩

/-- Witness for C6: a three-entry journey revisiting station `A` records a
destination sample for all four entries (the new one included) and restarts
from the turnaround point. -/
theorem trainer_terminus_records_destinations_witness :
    (trainerStep [("A_1", ["B_1"]), ("B_1", ["A_1", "A_2"]), ("A_2", ["B_1"])]
        [⟨"Departed", "A", 1, 0⟩, ⟨"Arrived", "B", 1, 60000⟩,
         ⟨"Departed", "B", 1, 120000⟩]
        ⟨"Arrived", "A", 2, 180000⟩).destSamples =
      [("A_1", "A_1", "B_1"), ("A_1", "B_1", "B_1"),
       ("A_1", "B_1", "B_1"), ("A_1", "A_2", "B_1")] ∧
    (trainerStep [("A_1", ["B_1"]), ("B_1", ["A_1", "A_2"]), ("A_2", ["B_1"])]
        [⟨"Departed", "A", 1, 0⟩, ⟨"Arrived", "B", 1, 60000⟩,
         ⟨"Departed", "B", 1, 120000⟩]
        ⟨"Arrived", "A", 2, 180000⟩).journey =
      [⟨"Departed", "B", 1, 120000⟩, ⟨"Arrived", "A", 2, 180000⟩] := by
  have h := trainer_terminus_records_destinations
    [("A_1", ["B_1"]), ("B_1", ["A_1", "A_2"]), ("A_2", ["B_1"])]
    [⟨"Departed", "A", 1, 0⟩, ⟨"Arrived", "B", 1, 60000⟩,
     ⟨"Departed", "B", 1, 120000⟩]
    ⟨"Arrived", "A", 2, 180000⟩ ⟨"Departed", "B", 1, 120000⟩
    (by decide) (by decide) (by decide) (by decide) (by decide)
  exact ⟨by rw [h.1]; decide, h.2⟩

theorem dedupConsecutive_eq_cons_collapseAux (a : String) (l : List String) :
    dedupConsecutive (a :: l) = a :: collapseAux a l := by
  induction l generalizing a with
  | nil => rfl
  | cons c rest ih =>
    simp only [dedupConsecutive, collapseAux]
    by_cases hac : a = c
    · subst hac
      rw [if_pos rfl, if_pos rfl, ih]
    · rw [if_neg hac, if_neg (fun h => hac h.symm), ih]

theorem collapseJS_eq_dedupConsecutive (l : List String) :
    collapseJS l = dedupConsecutive l := by
  cases l with
  | nil => rfl
  | cons a rest => rw [collapseJS, dedupConsecutive_eq_cons_collapseAux]

theorem getD_of_lt (j : List FullState) (i : Nat) (hi : i < j.length) :
    j.getD i default = j[i] := by
  rw [List.getD_eq_getElem?_getD, List.getElem?_eq_getElem hi, Option.getD_some]

theorem specCollapsed_cons (j : List FullState) (i : Nat) (hi : i < j.length) :
    specCollapsed j i =
      (j.getD i default).locationCode ::
        collapseAux (j.getD i default).locationCode
          ((j.drop (i + 1)).map FullState.locationCode) := by
  unfold specCollapsed
  rw [List.drop_eq_getElem_cons hi, List.map_cons,
    dedupConsecutive_eq_cons_collapseAux, getD_of_lt j i hi]

theorem trainerPathCodes_eq_spec (j : List FullState) (i : Nat) :
    trainerPathCodes j i =
      if 1 < (specCollapsed j i).length then (specCollapsed j i).tail
      else specCollapsed j i := by
  unfold trainerPathCodes specCollapsed
  rw [collapseJS_eq_dedupConsecutive]

theorem getD_last_eq_getLast (l : List String) (h : l ≠ []) :
    l.getD (l.length - 1) "" = l.getLast h := by
  rw [List.getD_eq_getElem?_getD, List.getLast_eq_getElem,
    List.getElem?_eq_getElem (by cases l with
      | nil => exact absurd rfl h
      | cons a t => simp), Option.getD_some]

theorem shifted_getD_last (x : String) (t : List String) :
    (if 1 < (x :: t).length then (x :: t).tail else (x :: t)).getD
      ((if 1 < (x :: t).length then (x :: t).tail else (x :: t)).length - 1) "" =
    (x :: t).getLast (List.cons_ne_nil x t) := by
  cases t with
  | nil => rfl
  | cons y t' =>
    rw [if_pos (by simp), List.tail_cons,
      getD_last_eq_getLast (y :: t') (List.cons_ne_nil y t'),
      List.getLast_cons (List.cons_ne_nil y t')]

/-- **C1.** For a journey of length at least 2 whose newest observation is
`Arrived`, the trainer records for every earlier index `i` a time-delta
sample under `from.key ++ "->" ++ pathKey` of value `newest.date − from.date`,
where `pathKey` joins the consecutive-duplicate-collapsed location codes of
the slice starting at `i` with the `from` location (the collapsed head)
removed when more than one element remains; a path-frequency sample
`(from.location, newest.station, pathKey)` is recorded exactly when the last
collapsed location differs from `from`'s; and a non-`Arrived` newest state
records nothing. -/
theorem trainer_arrival_records (j : List FullState) (to_ : FullState)
    (h2 : 2 ≤ j.length) (harr : to_.state = "Arrived") :
    ((arrivedRecords j to_).2 = (List.range (j.length - 1)).map (fun i =>
        ((j.getD i default).key ++ "->" ++ specPathKey j i,
         to_.date - (j.getD i default).date))) ∧
    ((arrivedRecords j to_).1 = (List.range (j.length - 1)).filterMap (fun i =>
        if (specCollapsed j i).getLast? ≠ some (j.getD i default).locationCode then
          some ((j.getD i default).locationCode, to_.stationCode, specPathKey j i)
        else none)) ∧
    (∀ i ∈ List.range (j.length - 1),
        (specCollapsed j i).head? = some (j.getD i default).locationCode) ∧
    (∀ s : FullState, s.state ≠ "Arrived" → arrivedRecords j s = ([], [])) := by
  have hkey : ∀ i, i < j.length →
      String.intercalate "->" (trainerPathCodes j i) = specPathKey j i := by
    intro i hi
    rw [trainerPathCodes_eq_spec]
    rfl
  have hcond : ∀ i, i < j.length →
      ((j.getD i default).locationCode ≠
        (trainerPathCodes j i).getD ((trainerPathCodes j i).length - 1) "" ↔
       (specCollapsed j i).getLast? ≠ some (j.getD i default).locationCode) := by
    intro i hi
    rw [trainerPathCodes_eq_spec, specCollapsed_cons j i hi]
    set x := (j.getD i default).locationCode
    set t := collapseAux x ((j.drop (i + 1)).map FullState.locationCode)
    rw [shifted_getD_last x t,
      List.getLast?_eq_getLast_of_ne_nil (List.cons_ne_nil x t)]
    constructor
    · intro hne hcontra
      exact hne (by injection hcontra with h; exact h.symm)
    · intro hne hcontra
      exact hne (congrArg some hcontra.symm)
  refine ⟨?_, ?_, ?_, ?_⟩
  · unfold arrivedRecords
    rw [if_pos harr]
    refine List.map_congr_left ?_
    intro i hmem
    have hi : i < j.length := by
      have := List.mem_range.mp hmem
      omega
    unfold arrivedRecordAt
    simp only
    rw [hkey i hi]
  · unfold arrivedRecords
    rw [if_pos harr]
    refine List.filterMap_congr ?_
    intro i hmem
    have hi : i < j.length := by
      have := List.mem_range.mp hmem
      omega
    unfold arrivedRecordAt
    simp only
    by_cases hc : (specCollapsed j i).getLast? ≠ some (j.getD i default).locationCode
    · rw [if_pos ((hcond i hi).mpr hc), if_pos hc, hkey i hi]
    · rw [if_neg (fun h => hc ((hcond i hi).mp h)), if_neg hc]
  · intro i hmem
    have hi : i < j.length := by
      have := List.mem_range.mp hmem
      omega
    rw [specCollapsed_cons j i hi]
    rfl
  · intro s hs
    unfold arrivedRecords
    rw [if_neg hs]

/-- Witness for C1: a three-entry journey ending in an arrival at a new
station; the same-location pair collapses and the `from` location is
removed from each path key. -/
theorem trainer_arrival_records_witness :
    (arrivedRecords
        [⟨"Approaching", "ABC", 1, 0⟩, ⟨"Arrived", "ABC", 1, 1000⟩,
         ⟨"Arrived", "DEF", 1, 2000⟩] ⟨"Arrived", "DEF", 1, 2000⟩).2 =
      (List.range 2).map (fun i =>
        ((([⟨"Approaching", "ABC", 1, 0⟩, ⟨"Arrived", "ABC", 1, 1000⟩,
            ⟨"Arrived", "DEF", 1, 2000⟩] : List FullState).getD i default).key ++
          "->" ++ specPathKey [⟨"Approaching", "ABC", 1, 0⟩,
            ⟨"Arrived", "ABC", 1, 1000⟩, ⟨"Arrived", "DEF", 1, 2000⟩] i,
         (2000 : Int) - (([⟨"Approaching", "ABC", 1, 0⟩,
            ⟨"Arrived", "ABC", 1, 1000⟩,
            ⟨"Arrived", "DEF", 1, 2000⟩] : List FullState).getD i default).date)) :=
  (trainer_arrival_records
    [⟨"Approaching", "ABC", 1, 0⟩, ⟨"Arrived", "ABC", 1, 1000⟩,
     ⟨"Arrived", "DEF", 1, 2000⟩] ⟨"Arrived", "DEF", 1, 2000⟩
    (by decide) rfl).1

/-! ## Theorems: the predictor walk (C2, C3, C4) -/

theorem walkStep_eq_of_found (m : MedianTimeDeltas) (initDate hb : Int)
    (ws : WalkState) (next key' : String) (d : Int)
    (hfound : foundDelta m ws.key ws.pathed next = some (key', d)) :
    walkStep m initDate hb ws next =
      (if (if initDate + ws.buffer + d < hb then hb else initDate + ws.buffer + d) - hb >
          PREDICTION_WINDOW then none
       else some ⟨key', ws.pathed ++ [next],
         if initDate + ws.buffer + d < hb then
           ws.buffer + (hb - (initDate + ws.buffer + d)) else ws.buffer,
         ws.preds ++ [(next,
           if initDate + ws.buffer + d < hb then hb else initDate + ws.buffer + d)]⟩) := by
  unfold walkStep
  rw [hfound]

/-- **C3.** With heartbeat `T`, a leg whose post-clamp projected time
strictly exceeds `T` plus the 2-hour window is not emitted: the walk stops
and the predictions produced so far are returned. A leg whose post-clamp
projected time is exactly `T` plus 2 hours is emitted. -/
theorem predictor_window_cutoff (m : MedianTimeDeltas) (initDate hb : Int)
    (ws : WalkState) (next : String) (rest : List String) (key' : String) (d : Int)
    (hfound : foundDelta m ws.key ws.pathed next = some (key', d)) :
    ((if initDate + ws.buffer + d < hb then hb else initDate + ws.buffer + d) - hb >
        PREDICTION_WINDOW →
      walkStep m initDate hb ws next = none ∧
      walkLegs m initDate hb ws (next :: rest) = (ws, false)) ∧
    ((if initDate + ws.buffer + d < hb then hb else initDate + ws.buffer + d) - hb =
        PREDICTION_WINDOW →
      walkStep m initDate hb ws next = some ⟨key', ws.pathed ++ [next],
        if initDate + ws.buffer + d < hb then
          ws.buffer + (hb - (initDate + ws.buffer + d)) else ws.buffer,
        ws.preds ++ [(next,
          if initDate + ws.buffer + d < hb then hb else initDate + ws.buffer + d)]⟩) := by
  constructor
  · intro hgt
    have hnone : walkStep m initDate hb ws next = none := by
      rw [walkStep_eq_of_found m initDate hb ws next key' d hfound, if_pos hgt]
    refine ⟨hnone, ?_⟩
    unfold walkLegs
    rw [hnone]
  · intro heq
    rw [walkStep_eq_of_found m initDate hb ws next key' d hfound,
      if_neg (by omega)]

/-- Witness for C3: with heartbeat 0, a delta of exactly two hours is
emitted and a delta of two hours plus one second stops the walk. -/
theorem predictor_window_cutoff_witness :
    walkStep [("Departed-AAA_1->BBB_1", (7200000 : Int))] 0 0
        ⟨"Departed-AAA_1", [], 0, []⟩ "BBB_1" =
      some ⟨"Departed-AAA_1", ["BBB_1"], 0, [("BBB_1", 7200000)]⟩ ∧
    walkLegs [("Departed-AAA_1->BBB_1", (7201000 : Int))] 0 0
        ⟨"Departed-AAA_1", [], 0, []⟩ ["BBB_1"] =
      (⟨"Departed-AAA_1", [], 0, []⟩, false) := by
  constructor
  · have h := (predictor_window_cutoff [("Departed-AAA_1->BBB_1", (7200000 : Int))]
      0 0 ⟨"Departed-AAA_1", [], 0, []⟩ "BBB_1" [] "Departed-AAA_1" 7200000
      (by decide)).2 (by decide)
    rw [h]
    decide
  · exact ((predictor_window_cutoff [("Departed-AAA_1->BBB_1", (7201000 : Int))]
      0 0 ⟨"Departed-AAA_1", [], 0, []⟩ "BBB_1" [] "Departed-AAA_1" 7201000
      (by decide)).1 (by decide)).2

theorem walkStep_some_shape (m : MedianTimeDeltas) (initDate hb : Int)
    (ws : WalkState) (next : String) (ws' : WalkState)
    (h : walkStep m initDate hb ws next = some ws') :
    ∃ t, ws'.preds = ws.preds ++ [(next, t)] ∧ hb ≤ t := by
  cases hf : foundDelta m ws.key ws.pathed next with
  | none =>
    rw [walkStep] at h
    rw [hf] at h
    exact absurd h (by simp)
  | some kd =>
    obtain ⟨k, d⟩ := kd
    rw [walkStep_eq_of_found m initDate hb ws next k d hf] at h
    by_cases hwin :
        (if initDate + ws.buffer + d < hb then hb else initDate + ws.buffer + d) - hb >
          PREDICTION_WINDOW
    · rw [if_pos hwin] at h
      exact absurd h (by simp)
    · rw [if_neg hwin] at h
      injection h with h
      refine ⟨if initDate + ws.buffer + d < hb then hb else initDate + ws.buffer + d,
        ?_, ?_⟩
      · rw [← h]
      · by_cases hc : initDate + ws.buffer + d < hb
        · rw [if_pos hc]
        · rw [if_neg hc]; omega

theorem walkLegs_preds_ge (m : MedianTimeDeltas) (initDate hb : Int) :
    ∀ (path : List String) (ws : WalkState),
      (∀ q ∈ ws.preds, hb ≤ q.2) →
      ∀ q ∈ (walkLegs m initDate hb ws path).1.preds, hb ≤ q.2 := by
  intro path
  induction path with
  | nil => intro ws hws; exact hws
  | cons next rest ih =>
    intro ws hws
    unfold walkLegs
    cases hstep : walkStep m initDate hb ws next with
    | none => exact hws
    | some ws' =>
      refine ih ws' ?_
      obtain ⟨t, hpreds, ht⟩ := walkStep_some_shape m initDate hb ws next ws' hstep
      intro q hq
      rw [hpreds] at hq
      rcases List.mem_append.mp hq with hq | hq
      · exact hws q hq
      · rcases List.mem_singleton.mp hq with rfl
        exact ht

theorem predict_preds_ge (p : Predictor) (g : Graph) :
    ∀ (fuel : Nat) (hb : Int) (st : FullState) (sl dst : Option String)
      (tt : List TimetableEntry) (l : List (String × Int)),
      predictNextArrivals p g fuel hb st sl dst tt = .ok l → ∀ q ∈ l, hb ≤ q.2 := by
  intro fuel
  induction fuel with
  | zero => intro hb st sl dst tt l h; exact absurd h (by simp [predictNextArrivals])
  | succ fuel ih =>
    intro hb st sl dst tt l h
    unfold predictNextArrivals at h
    dsimp only at h
    cases hdest : resolveDestination p.usualDestinations tt st
        ((sl.getD (st.stationCode ++ "_" ++ toString st.platform)))
        (st.stationCode ++ "_" ++ toString st.platform) dst with
    | error e => rw [hdest] at h; exact absurd h (by simp)
    | ok destination =>
      rw [hdest] at h
      dsimp only at h
      cases hpath : resolvePath p.usualPaths g
          (st.stationCode ++ "_" ++ toString st.platform) destination with
      | error e => rw [hpath] at h; exact absurd h (by simp)
      | ok path =>
        rw [hpath] at h
        dsimp only at h
        have hwalk : ∀ q ∈ (walkLegs p.medianPathTimes st.date hb
            ⟨st.state ++ "-" ++ (st.stationCode ++ "_" ++ toString st.platform), [], 0, []⟩
            path).1.preds, hb ≤ q.2 :=
          walkLegs_preds_ge p.medianPathTimes st.date hb path _ (by intro q hq; simp at hq)
        by_cases hr2 : (walkLegs p.medianPathTimes st.date hb
            ⟨st.state ++ "-" ++ (st.stationCode ++ "_" ++ toString st.platform), [], 0, []⟩
            path).2 = true
        · rw [if_pos hr2] at h
          cases hlast : path.getLast? with
          | none =>
            rw [hlast] at h
            dsimp only at h
            injection h with h
            rw [← h]
            exact hwalk
          | some lastLocation =>
            rw [hlast] at h
            dsimp only at h
            cases hparse : parseLocation lastLocation with
            | none => rw [hparse] at h; exact absurd h (by simp)
            | some sp =>
              obtain ⟨stn, plt⟩ := sp
              rw [hparse] at h
              dsimp only at h
              cases hrec : predictNextArrivals p g fuel hb
                  ⟨"Arrived", stn, plt.getD 0,
                   (((walkLegs p.medianPathTimes st.date hb
                      ⟨st.state ++ "-" ++ (st.stationCode ++ "_" ++ toString st.platform),
                       [], 0, []⟩ path).1.preds.getLast?).map Prod.snd).getD 0⟩
                  (some lastLocation) none tt with
              | ok more =>
                rw [hrec] at h
                dsimp only at h
                injection h with h
                rw [← h]
                intro q hq
                rcases List.mem_append.mp hq with hq | hq
                · exact hwalk q hq
                · exact ih hb _ (some lastLocation) none tt more hrec q hq
              | error e =>
                rw [hrec] at h
                dsimp only at h
                injection h with h
                rw [← h]
                exact hwalk
        · rw [if_neg hr2] at h
          injection h with h
          rw [← h]
          exact hwalk

/-- **C2 (corrected).** If a leg's unclamped projected time (initial
observation time + buffer + median delta) is strictly earlier than the
heartbeat, the emitted prediction time is the heartbeat and the clamping
difference is added to the buffer, so that the immediately following leg's
unclamped projected time equals heartbeat + (that leg's median delta − the
clamped leg's median delta) — the deltas are cumulative from the initial
observation, so the bare "heartbeat + next delta" of the original claim does
not hold — and no prediction emitted by `predictNextArrivals` is earlier
than the heartbeat. -/
theorem predictor_clamping_corrected (m : MedianTimeDeltas) (initDate hb : Int)
    (ws : WalkState) (next key' : String) (d : Int)
    (hfound : foundDelta m ws.key ws.pathed next = some (key', d))
    (hclamp : initDate + ws.buffer + d < hb) :
    walkStep m initDate hb ws next =
      some ⟨key', ws.pathed ++ [next], hb - initDate - d,
        ws.preds ++ [(next, hb)]⟩ ∧
    (∀ d2 : Int, initDate + (hb - initDate - d) + d2 = hb + (d2 - d)) ∧
    (∀ (p : Predictor) (g : Graph) (fuel : Nat) (st : FullState)
        (sl dst : Option String) (tt : List TimetableEntry)
        (l : List (String × Int)),
      predictNextArrivals p g fuel hb st sl dst tt = .ok l →
      ∀ q ∈ l, hb ≤ q.2) := by
  refine ⟨?_, fun d2 => by ring, fun p g fuel st sl dst tt l h => predict_preds_ge p g fuel hb st sl dst tt l h⟩
  rw [walkStep_eq_of_found m initDate hb ws next key' d hfound, if_pos hclamp,
    if_neg (by unfold PREDICTION_WINDOW; omega)]
  have h1 : ws.buffer + (hb - (initDate + ws.buffer + d)) = hb - initDate - d := by ring
  rw [h1, if_pos hclamp]

/-- Counterexample for C2 as stated: with heartbeat 100 and cumulative
medians 50 (first leg) and 60 (both legs), the first leg clamps to 100 with
buffer 50, and the second leg's unclamped projected time is
0 + 50 + 60 = 110, not heartbeat + its median delta = 160. -/
theorem predictor_clamping_cex :
    walkStep [("Departed-AAA_1->BBB_1", (50 : Int)),
        ("Departed-AAA_1->BBB_1->CCC_1", 60)] 0 100
        ⟨"Departed-AAA_1", [], 0, []⟩ "BBB_1" =
      some ⟨"Departed-AAA_1", ["BBB_1"], 50, [("BBB_1", 100)]⟩ ∧
    ((0 : Int) + 0 + 50 < 100) ∧
    foundDelta [("Departed-AAA_1->BBB_1", (50 : Int)),
        ("Departed-AAA_1->BBB_1->CCC_1", 60)] "Departed-AAA_1" ["BBB_1"] "CCC_1" =
      some ("Departed-AAA_1", 60) ∧
    ((0 : Int) + 50 + 60 ≠ 100 + 60) := by
  refine ⟨?_, by norm_num, by decide, by norm_num⟩
  decide

/-- Witness for C2 (corrected), instantiating the clamping equation at the
counterexample's first leg. -/
theorem predictor_clamping_corrected_witness :
    walkStep [("Departed-AAA_1->BBB_1", (50 : Int)),
        ("Departed-AAA_1->BBB_1->CCC_1", 60)] 0 100
        ⟨"Departed-AAA_1", [], 0, []⟩ "BBB_1" =
      some ⟨"Departed-AAA_1", ["BBB_1"], 100 - 0 - 50, [("BBB_1", 100)]⟩ :=
  (predictor_clamping_corrected [("Departed-AAA_1->BBB_1", (50 : Int)),
      ("Departed-AAA_1->BBB_1->CCC_1", 60)] 0 100
      ⟨"Departed-AAA_1", [], 0, []⟩ "BBB_1" "Departed-AAA_1" 50
      (by decide) (by norm_num)).1

/-- **C4 (corrected).** The recursive self-invocation (treating the final
predicted location as a new `Arrived` observation at the last prediction's
time, with destination unresolved) happens only after fully exhausting the
path; any error of that recursive call is swallowed, so an inner failure
only means no further legs are appended. Stopping early — window exceeded
or no delta found — returns the predictions produced so far with NO
recursive call, even when at least one prediction was already made. -/
theorem predictor_chaining_corrected (p : Predictor) (g : Graph) (fuel : Nat)
    (hb : Int) (st : FullState) (sl dst : Option String)
    (tt : List TimetableEntry) (dest : String) (path : List String)
    (hdest : resolveDestination p.usualDestinations tt st
        (sl.getD (st.stationCode ++ "_" ++ toString st.platform))
        (st.stationCode ++ "_" ++ toString st.platform) dst = .ok dest)
    (hpath : resolvePath p.usualPaths g
        (st.stationCode ++ "_" ++ toString st.platform) dest = .ok path) :
    ((walkLegs p.medianPathTimes st.date hb
        ⟨st.state ++ "-" ++ (st.stationCode ++ "_" ++ toString st.platform),
         [], 0, []⟩ path).2 = false →
      predictNextArrivals p g (fuel + 1) hb st sl dst tt =
        .ok (walkLegs p.medianPathTimes st.date hb
          ⟨st.state ++ "-" ++ (st.stationCode ++ "_" ++ toString st.platform),
           [], 0, []⟩ path).1.preds) ∧
    (∀ lastLocation station platform,
      (walkLegs p.medianPathTimes st.date hb
        ⟨st.state ++ "-" ++ (st.stationCode ++ "_" ++ toString st.platform),
         [], 0, []⟩ path).2 = true →
      path.getLast? = some lastLocation →
      parseLocation lastLocation = some (station, platform) →
      predictNextArrivals p g (fuel + 1) hb st sl dst tt =
        .ok ((walkLegs p.medianPathTimes st.date hb
            ⟨st.state ++ "-" ++ (st.stationCode ++ "_" ++ toString st.platform),
             [], 0, []⟩ path).1.preds ++
          (match predictNextArrivals p g fuel hb
              ⟨"Arrived", station, platform.getD 0,
               (((walkLegs p.medianPathTimes st.date hb
                  ⟨st.state ++ "-" ++ (st.stationCode ++ "_" ++ toString st.platform),
                   [], 0, []⟩ path).1.preds.getLast?).map Prod.snd).getD 0⟩
              (some lastLocation) none tt with
           | .ok more => more
           | .error _ => []))) := by
  constructor
  · intro h2
    rw [predictNextArrivals]
    dsimp only
    rw [hdest]
    dsimp only
    rw [hpath]
    dsimp only
    rw [if_neg (by rw [h2]; simp)]
  · intro lastLocation station platform h2 hlast hparse
    rw [predictNextArrivals]
    dsimp only
    rw [hdest]
    dsimp only
    rw [hpath]
    dsimp only
    rw [if_pos h2, hlast]
    dsimp only
    rw [hparse]
    dsimp only
    cases hrec : predictNextArrivals p g fuel hb
        ⟨"Arrived", station, platform.getD 0,
         (((walkLegs p.medianPathTimes st.date hb
            ⟨st.state ++ "-" ++ (st.stationCode ++ "_" ++ toString st.platform),
             [], 0, []⟩ path).1.preds.getLast?).map Prod.snd).getD 0⟩
        (some lastLocation) none tt with
    | ok more => rfl
    | error e => simp

/-- Counterexample for C4 as stated: the first call stops early on the
window check after emitting one prediction and returns just that
prediction, even though the recursive continuation the claim requires
(from `Arrived` at the final predicted location `BBB_1`) would have
succeeded with a further prediction. -/
theorem predictor_chaining_cex :
    predictNextArrivals
        ⟨[("Departed-AAA_1->BBB_1", 100), ("Departed-AAA_1->BBB_1->CCC_1", 99999999),
          ("Arrived-BBB_1->EEE_1", 50)],
         [("AAA_1", [("DDD", "BBB_1->CCC_1")]), ("BBB_1", [("EEE", "EEE_1")])],
         [("BBB_1", [("BBB_1", "EEE")])]⟩ [] 5 0 ⟨"Departed", "AAA", 1, 0⟩
        none (some "DDD") [] = .ok [("BBB_1", 100)] ∧
    predictNextArrivals
        ⟨[("Departed-AAA_1->BBB_1", 100), ("Departed-AAA_1->BBB_1->CCC_1", 99999999),
          ("Arrived-BBB_1->EEE_1", 50)],
         [("AAA_1", [("DDD", "BBB_1->CCC_1")]), ("BBB_1", [("EEE", "EEE_1")])],
         [("BBB_1", [("BBB_1", "EEE")])]⟩ [] 4 0 ⟨"Arrived", "BBB", 1, 100⟩
        (some "BBB_1") none [] = .ok [("EEE_1", 150)] :=
  ⟨by decide, by decide⟩

/-- Witness for C4 (corrected): the early-stop clause at the
counterexample's first call. -/
theorem predictor_chaining_corrected_witness :
    predictNextArrivals
        ⟨[("Departed-AAA_1->BBB_1", 100), ("Departed-AAA_1->BBB_1->CCC_1", 99999999),
          ("Arrived-BBB_1->EEE_1", 50)],
         [("AAA_1", [("DDD", "BBB_1->CCC_1")]), ("BBB_1", [("EEE", "EEE_1")])],
         [("BBB_1", [("BBB_1", "EEE")])]⟩ [] (4 + 1) 0 ⟨"Departed", "AAA", 1, 0⟩
        none (some "DDD") [] =
      .ok (walkLegs
          [("Departed-AAA_1->BBB_1", 100), ("Departed-AAA_1->BBB_1->CCC_1", 99999999),
           ("Arrived-BBB_1->EEE_1", 50)] 0 0
          ⟨"Departed-AAA_1", [], 0, []⟩ ["BBB_1", "CCC_1"]).1.preds :=
  (predictor_chaining_corrected
    ⟨[("Departed-AAA_1->BBB_1", 100), ("Departed-AAA_1->BBB_1->CCC_1", 99999999),
      ("Arrived-BBB_1->EEE_1", 50)],
     [("AAA_1", [("DDD", "BBB_1->CCC_1")]), ("BBB_1", [("EEE", "EEE_1")])],
     [("BBB_1", [("BBB_1", "EEE")])]⟩ [] 4 0 ⟨"Departed", "AAA", 1, 0⟩
    none (some "DDD") [] "DDD" ["BBB_1", "CCC_1"] (by decide) (by decide)).1 (by decide)

/-! ## Theorems: destination and path resolution (C5) -/

theorem parseLocation_station_ne_empty (s stn : String) (pl : Option Nat)
    (h : parseLocation s = some (stn, pl)) : stn ≠ "" := by
  unfold parseLocation at h
  rcases hdata : s.data with _ | ⟨a, _ | ⟨b, _ | ⟨c, rest⟩⟩⟩ <;>
    rw [hdata] at h <;> dsimp only at h
  · exact absurd h (by simp)
  · exact absurd h (by simp)
  · exact absurd h (by simp)
  · by_cases hg : a.isUpper ∧ a.isAlpha ∧ b.isUpper ∧ b.isAlpha ∧ c.isUpper ∧ c.isAlpha
    · rw [if_pos hg] at h
      cases rest with
      | nil =>
        injection h with h
        injection h with h1 h2
        intro hc
        rw [← h1] at hc
        exact absurd (congrArg String.data hc) (by simp)
      | cons d digits =>
        dsimp only at h
        by_cases hd : d = '_' ∧ digits ≠ [] ∧ digits.all Char.isDigit
        · rw [if_pos hd] at h
          injection h with h
          injection h with h1 h2
          intro hc
          rw [← h1] at hc
          exact absurd (congrArg String.data hc) (by simp)
        · rw [if_neg hd] at h
          exact absurd h (by simp)
    · rw [if_neg hg] at h
      exact absurd h (by simp)

theorem canonDest_ne_empty (d : String) (hd : d ≠ "") : canonDest d ≠ "" := by
  unfold canonDest
  by_cases h1 : d = "MTN"
  · rw [if_pos h1]; intro hc; exact absurd (congrArg String.data hc) (by simp)
  · rw [if_neg h1]
    by_cases h2 : d = "MTE"
    · rw [if_pos h2]; intro hc; exact absurd (congrArg String.data hc) (by simp)
    · rw [if_neg h2]; exact hd

theorem timetableFold_inv (useArrival : Bool) (ssm : Int) (initLoc : String) :
    ∀ (entries : List TimetableEntry) (S : Int) (dest : Option String),
    (∀ e ∈ entries, ttMatches initLoc e = true → (parseLocation e.destination).isSome) →
    ∃ S' d', timetableFold useArrival ssm initLoc entries (S, dest) = .ok (S', d') ∧
      S' ≤ S ∧
      ((d' = dest ∧ S' = S ∧
        ∀ e ∈ entries, ttMatches initLoc e = true →
          S ≤ |entryTimeJS useArrival e - ssm|) ∨
       (∃ e ∈ entries, ttMatches initLoc e = true ∧
          |entryTimeJS useArrival e - ssm| = S' ∧ S' < S ∧
          d' = some (canonDest (entryDestStation e)) ∧
          ∀ e2 ∈ entries, ttMatches initLoc e2 = true →
            S' ≤ |entryTimeJS useArrival e2 - ssm|)) := by
  intro entries
  induction entries with
  | nil =>
    intro S dest _
    exact ⟨S, dest, rfl, le_refl S, Or.inl ⟨rfl, rfl, by simp⟩⟩
  | cons e rest ih =>
    intro S dest hparse
    have hparseRest : ∀ e2 ∈ rest, ttMatches initLoc e2 = true →
        (parseLocation e2.destination).isSome :=
      fun e2 he2 => hparse e2 (List.mem_cons_of_mem e he2)
    unfold timetableFold
    by_cases hm : ttMatches initLoc e = true
    · rw [if_pos hm]
      by_cases hlt : |entryTimeJS useArrival e - ssm| < (S, dest).1
      · rw [if_pos hlt]
        have hp := hparse e (List.mem_cons_self e rest) hm
        cases hps : parseLocation e.destination with
        | none => rw [hps] at hp; exact absurd hp (by simp)
        | some sp =>
          obtain ⟨stn, pl⟩ := sp
          dsimp only
          obtain ⟨S', d', heq, hle, hbr⟩ :=
            ih (|entryTimeJS useArrival e - ssm|) (some (canonDest stn)) hparseRest
          refine ⟨S', d', heq, le_trans hle (le_of_lt hlt), Or.inr ?_⟩
          rcases hbr with ⟨hd', hS', hall⟩ | ⟨e3, he3, hm3, hdiff3, hlt3, hd3, hall3⟩
          · refine ⟨e, List.mem_cons_self e rest, hm, by omega, by omega, ?_, ?_⟩
            · rw [hd']
              unfold entryDestStation
              rw [hps]
              rfl
            · intro e2 he2 hm2
              rcases List.mem_cons.mp he2 with rfl | he2
              · omega
              · have := hall e2 he2 hm2
                omega
          · refine ⟨e3, List.mem_cons_of_mem e he3, hm3, hdiff3, by omega, hd3, ?_⟩
            intro e2 he2 hm2
            rcases List.mem_cons.mp he2 with rfl | he2
            · omega
            · exact hall3 e2 he2 hm2
      · rw [if_neg hlt]
        obtain ⟨S', d', heq, hle, hbr⟩ := ih S dest hparseRest
        refine ⟨S', d', heq, hle, ?_⟩
        rcases hbr with ⟨hd', hS', hall⟩ | ⟨e3, he3, hm3, hdiff3, hlt3, hd3, hall3⟩
        · refine Or.inl ⟨hd', hS', ?_⟩
          intro e2 he2 hm2
          rcases List.mem_cons.mp he2 with rfl | he2
          · simp only at hlt; omega
          · exact hall e2 he2 hm2
        · refine Or.inr ⟨e3, List.mem_cons_of_mem e he3, hm3, hdiff3, hlt3, hd3, ?_⟩
          intro e2 he2 hm2
          rcases List.mem_cons.mp he2 with rfl | he2
          · simp only at hlt; omega
          · exact hall3 e2 he2 hm2
    · rw [if_neg hm]
      obtain ⟨S', d', heq, hle, hbr⟩ := ih S dest hparseRest
      refine ⟨S', d', heq, hle, ?_⟩
      rcases hbr with ⟨hd', hS', hall⟩ | ⟨e3, he3, hm3, hdiff3, hlt3, hd3, hall3⟩
      · refine Or.inl ⟨hd', hS', ?_⟩
        intro e2 he2 hm2
        rcases List.mem_cons.mp he2 with rfl | he2
        · exact absurd hm2 hm
        · exact hall e2 he2 hm2
      · refine Or.inr ⟨e3, List.mem_cons_of_mem e he3, hm3, hdiff3, hlt3, hd3, ?_⟩
        intro e2 he2 hm2
        rcases List.mem_cons.mp he2 with rfl | he2
        · exact absurd hm2 hm
        · exact hall3 e2 he2 hm2

/-- **C5.** With a null destination, resolution order is: first the
timetable — among entries whose location matches the current location, the
one whose scheduled time (arrival time when the state is Approaching or
Arrived, otherwise departure time) has the smallest absolute difference
from the observation's time of day, accepted only strictly below 15
minutes, with MTN canonicalized to MTS and MTE to MTW; then the
UsualDestinations model keyed by (startingLocation, currentLocation); else
a no-destination-found error. Given a destination, if neither the
UsualPaths model nor the location-graph shortest path yields a path, the
call fails with a no-path-found error. (Timetable entries are assumed to
carry a departure time, a nonzero arrival time, and a parseable
destination, as real timetables do.) -/
theorem predictor_destination_resolution (p : Predictor) (g : Graph)
    (fuel : Nat) (hb : Int) (st : FullState) (sl : Option String)
    (tt : List TimetableEntry) (initLoc startLoc : String) (useArr : Bool)
    (ssm : Int) (diff : TimetableEntry → Int)
    (hinit : initLoc = st.stationCode ++ "_" ++ toString st.platform)
    (hstart : startLoc = sl.getD initLoc)
    (huse : useArr = (st.state = "Approaching" || st.state = "Arrived"))
    (hssm : ssm = toSecondsSinceMidnight st.date)
    (hdiffdef : ∀ e, diff e =
      |(if useArr then e.arrivalTime.getD 0 else e.departureTime.getD 0) - ssm|)
    (hdep : ∀ e ∈ tt, e.departureTime.isSome)
    (harr : ∀ e ∈ tt, ∃ t, e.arrivalTime = some t ∧ t ≠ 0)
    (hparse : ∀ e ∈ tt, (parseLocation e.destination).isSome) :
    ((∃ e ∈ tt, locationsMatch e.location initLoc = true ∧
        diff e < TIMETABLE_THRESHOLD) →
      ∃ e ∈ tt, locationsMatch e.location initLoc = true ∧
        diff e < TIMETABLE_THRESHOLD ∧
        (∀ e2 ∈ tt, locationsMatch e2.location initLoc = true →
          diff e ≤ diff e2) ∧
        resolveDestination p.usualDestinations tt st startLoc initLoc none =
          .ok (canonDest (entryDestStation e))) ∧
    ((∀ e ∈ tt, locationsMatch e.location initLoc = true →
        ¬ diff e < TIMETABLE_THRESHOLD) →
      (∀ d, getUsualDestination p.usualDestinations startLoc initLoc = some d →
        d ≠ "" →
        resolveDestination p.usualDestinations tt st startLoc initLoc none = .ok d) ∧
      (jsFalsyStr (getUsualDestination p.usualDestinations startLoc initLoc) = true →
        resolveDestination p.usualDestinations tt st startLoc initLoc none =
          .error ("No destination found for starting location " ++ startLoc ++
            " and current location " ++ initLoc))) ∧
    (∀ dest : String,
      (getUsualPathKey p.usualPaths initLoc dest = none →
        shortestPath g initLoc dest = none →
        resolvePath p.usualPaths g initLoc dest =
          .error ("No path found from " ++ initLoc ++ " to " ++ dest)) ∧
      (∀ pk, getUsualPathKey p.usualPaths initLoc dest = some pk →
        resolvePath p.usualPaths g initLoc dest = .ok (splitArrow pk)) ∧
      (getUsualPathKey p.usualPaths initLoc dest = none →
        ∀ pth, shortestPath g initLoc dest = some pth →
        resolvePath p.usualPaths g initLoc dest = .ok pth)) ∧
    (∀ msg, resolveDestination p.usualDestinations tt st startLoc initLoc none =
        .error msg →
      predictNextArrivals p g (fuel + 1) hb st sl none tt = .error msg) ∧
    (∀ dest msg,
      resolveDestination p.usualDestinations tt st startLoc initLoc none = .ok dest →
      resolvePath p.usualPaths g initLoc dest = .error msg →
      predictNextArrivals p g (fuel + 1) hb st sl none tt = .error msg) := by
  subst hinit hstart huse hssm
  have hmeq : ∀ e ∈ tt, ttMatches (st.stationCode ++ "_" ++ toString st.platform) e =
      locationsMatch e.location (st.stationCode ++ "_" ++ toString st.platform) := by
    intro e he
    unfold ttMatches
    rw [hdep e he, Bool.true_and]
  have hJd : ∀ e ∈ tt,
      |entryTimeJS (st.state = "Approaching" || st.state = "Arrived") e -
        toSecondsSinceMidnight st.date| = diff e := by
    intro e he
    rw [hdiffdef e]
    obtain ⟨t, ht, ht0⟩ := harr e he
    unfold entryTimeJS
    by_cases hu : (st.state = "Approaching" || st.state = "Arrived") = true
    · rw [if_pos hu, if_pos ⟨hu, by rw [ht]; exact decide_eq_true ht0⟩]
    · rw [if_neg hu, if_neg (fun hc => hu hc.1)]
  have hparse2 : ∀ e ∈ tt,
      ttMatches (st.stationCode ++ "_" ++ toString st.platform) e = true →
      (parseLocation e.destination).isSome := fun e he _ => hparse e he
  obtain ⟨S', d', heq, hle, hbr⟩ :=
    timetableFold_inv (st.state = "Approaching" || st.state = "Arrived")
      (toSecondsSinceMidnight st.date) (st.stationCode ++ "_" ++ toString st.platform)
      tt TIMETABLE_THRESHOLD none hparse2
  have hresolve : resolveDestination p.usualDestinations tt st
      (sl.getD (st.stationCode ++ "_" ++ toString st.platform))
      (st.stationCode ++ "_" ++ toString st.platform) none =
      (if jsFalsyStr (if jsFalsyStr d' then
          getUsualDestination p.usualDestinations
            (sl.getD (st.stationCode ++ "_" ++ toString st.platform))
            (st.stationCode ++ "_" ++ toString st.platform) else d') = true then
        .error ("No destination found for starting location " ++
          (sl.getD (st.stationCode ++ "_" ++ toString st.platform)) ++
          " and current location " ++ (st.stationCode ++ "_" ++ toString st.platform))
      else .ok ((if jsFalsyStr d' then
          getUsualDestination p.usualDestinations
            (sl.getD (st.stationCode ++ "_" ++ toString st.platform))
            (st.stationCode ++ "_" ++ toString st.platform) else d').getD "")) := by
    unfold resolveDestination
    dsimp only
    rw [heq]
  refine ⟨?_, ?_, ?_, ?_, ?_⟩
  · intro ⟨e0, he0, hm0, hlt0⟩
    rcases hbr with ⟨hd', hS', hall⟩ | ⟨e, he, hm, hdiffS, hltS, hd', hall⟩
    · exfalso
      have := hall e0 he0 (by rw [hmeq e0 he0]; exact hm0)
      rw [hJd e0 he0] at this
      omega
    · have hstn : entryDestStation e ≠ "" := by
        cases hps : parseLocation e.destination with
        | none =>
          have := hparse e he
          rw [hps] at this
          exact absurd this (by simp)
        | some sp =>
          unfold entryDestStation
          rw [hps]
          exact parseLocation_station_ne_empty e.destination sp.1 sp.2
            (by rw [hps])
      have hcne : canonDest (entryDestStation e) ≠ "" := canonDest_ne_empty _ hstn
      have hfal : jsFalsyStr (some (canonDest (entryDestStation e))) = false := by
        unfold jsFalsyStr
        simpa using hcne
      refine ⟨e, he, by rw [← hmeq e he]; exact hm, ?_, ?_, ?_⟩
      · have h3 := hJd e he
        omega
      · intro e2 he2 hm2
        have h4 := hall e2 he2 (by rw [hmeq e2 he2]; exact hm2)
        rw [hJd e2 he2] at h4
        have h3 := hJd e he
        omega
      · rw [hresolve, hd']
        simp [hfal]
  · intro hnone
    rcases hbr with ⟨hd', hS', hall⟩ | ⟨e, he, hm, hdiffS, hltS, hd', hall⟩
    · subst hd'
      constructor
      · intro d hud hdne
        have h2 : jsFalsyStr (some d) = false := by
          unfold jsFalsyStr
          simpa using hdne
        rw [hresolve, if_pos (show jsFalsyStr (none : Option String) = true from rfl),
          hud, if_neg (show ¬ jsFalsyStr (some d) = true by simp [h2])]
        rfl
      · intro hud
        rw [hresolve, if_pos (show jsFalsyStr (none : Option String) = true from rfl),
          if_pos hud]
    · exfalso
      have h1 := hnone e he (by rw [← hmeq e he]; exact hm)
      have h3 := hJd e he
      omega
  · intro dest
    refine ⟨?_, ?_, ?_⟩
    · intro hk hsp
      unfold resolvePath getUsualPath
      rw [hk, hsp]
      rfl
    · intro pk hk
      unfold resolvePath getUsualPath
      rw [hk]
      rfl
    · intro hk pth hsp
      unfold resolvePath getUsualPath
      rw [hk, hsp]
      rfl
  · intro msg hres
    rw [predictNextArrivals]
    dsimp only
    rw [hres]
  · intro dest msg hres hpath2
    rw [predictNextArrivals]
    dsimp only
    rw [hres]
    dsimp only
    rw [hpath2]

/-- Witness for C5: with an `Arrived` state at 00:00:50 and a single
matching timetable entry whose arrival time is 100 seconds (diff 50 < 15
minutes) and whose raw destination is `MTN`, the resolved destination is
the canonicalized entry destination. -/
theorem predictor_destination_resolution_witness :
    ∃ e ∈ [(⟨"AAA_1", "MTN", some 100, some 200⟩ : TimetableEntry)],
      locationsMatch e.location "AAA_1" = true ∧
      |(if (("Arrived" : String) = "Approaching" || ("Arrived" : String) = "Arrived" : Bool) then
          e.arrivalTime.getD 0 else e.departureTime.getD 0) -
        toSecondsSinceMidnight 50000| < TIMETABLE_THRESHOLD ∧
      (∀ e2 ∈ [(⟨"AAA_1", "MTN", some 100, some 200⟩ : TimetableEntry)],
        locationsMatch e2.location "AAA_1" = true →
        |(if (("Arrived" : String) = "Approaching" || ("Arrived" : String) = "Arrived" : Bool) then
            e.arrivalTime.getD 0 else e.departureTime.getD 0) -
          toSecondsSinceMidnight 50000| ≤
        |(if (("Arrived" : String) = "Approaching" || ("Arrived" : String) = "Arrived" : Bool) then
            e2.arrivalTime.getD 0 else e2.departureTime.getD 0) -
          toSecondsSinceMidnight 50000|) ∧
      resolveDestination [] [⟨"AAA_1", "MTN", some 100, some 200⟩]
        ⟨"Arrived", "AAA", 1, 50000⟩ "AAA_1" "AAA_1" none =
        .ok (canonDest (entryDestStation e)) :=
  (predictor_destination_resolution ⟨[], [], []⟩ [] 0 0 ⟨"Arrived", "AAA", 1, 50000⟩
    none [⟨"AAA_1", "MTN", some 100, some 200⟩] "AAA_1" "AAA_1"
    (("Arrived" : String) = "Approaching" || ("Arrived" : String) = "Arrived")
    (toSecondsSinceMidnight 50000)
    (fun e => |(if (("Arrived" : String) = "Approaching" ||
        ("Arrived" : String) = "Arrived" : Bool) then
        e.arrivalTime.getD 0 else e.departureTime.getD 0) -
      toSecondsSinceMidnight 50000|)
    rfl rfl rfl rfl (fun e => rfl)
    (by decide)
    (fun e he => by rcases List.mem_singleton.mp he with rfl; exact ⟨100, rfl, by norm_num⟩)
    (by decide)).1
    (by decide)

/-! ## Theorems: model serialization round-trip and validation (C9) -/

theorem jsSet_append_of_absent {β : Type} (m : List (String × β)) (k : String)
    (v : β) (h : m.find? (fun p => p.1 = k) = none) :
    jsSet m k v = m ++ [(k, v)] := by
  unfold jsSet
  rw [h]
  rfl

theorem find?_key_none_of_not_mem {β : Type} (m : List (String × β)) (k : String)
    (h : k ∉ m.map Prod.fst) : m.find? (fun p => p.1 = k) = none := by
  rw [List.find?_eq_none]
  intro p hp hpk
  exact h (List.mem_map.mpr ⟨p, hp, by simpa using hpk⟩)

theorem MTD_fromJSONAux_roundtrip :
    ∀ (m : MedianTimeDeltas) (acc : MedianTimeDeltas),
      (m.map Prod.fst).Nodup →
      (∀ p ∈ m, acc.find? (fun q => q.1 = p.1) = none) →
      MTD_fromJSONAux (m.map (fun p => (p.1, Json.num p.2))) acc = .ok (acc ++ m) := by
  intro m
  induction m with
  | nil => intro acc _ _; simp [MTD_fromJSONAux]
  | cons kv rest ih =>
    intro acc hnodup hdisj
    obtain ⟨k, v⟩ := kv
    simp only [List.map_cons]
    unfold MTD_fromJSONAux
    dsimp only
    rw [jsSet_append_of_absent acc k v (hdisj (k, v) (List.mem_cons_self _ _))]
    rw [List.map_cons] at hnodup
    have hk_rest : ∀ p ∈ rest, p.1 ≠ k := by
      intro p hp hpk
      exact (List.nodup_cons.mp hnodup).1 (by
        rw [← hpk]
        exact List.mem_map.mpr ⟨p, hp, rfl⟩)
    have := ih (acc ++ [(k, v)]) (List.nodup_cons.mp hnodup).2 (by
      intro p hp
      rw [List.find?_append, hdisj p (List.mem_cons_of_mem _ hp), Option.none_or,
        List.find?_eq_none]
      intro q hq
      rcases List.mem_singleton.mp hq with rfl
      simpa using (hk_rest p hp).symm)
    rw [this, List.append_assoc]
    rfl

theorem setUsual_extend (acc : List (String × List (String × String)))
    (a b c : String) (cur : List (String × String))
    (hacc : acc.find? (fun p => p.1 = a) = none) :
    setUsual (acc ++ [(a, cur)]) a b c = acc ++ [(a, jsSet cur b c)] := by
  unfold setUsual
  have hfind : ((acc ++ [(a, cur)]).find? (fun p => p.1 = a)).isSome = true := by
    rw [List.find?_append, hacc, Option.none_or]
    simp
  rw [if_pos hfind, List.map_append]
  congr 1
  · conv_rhs => rw [← List.map_id acc]
    apply List.map_congr_left
    intro p hp
    have hne := List.find?_eq_none.mp hacc p hp
    simp only [decide_eq_true_eq] at hne
    rw [if_neg hne]
    rfl
  · simp

theorem UP_fromJSONInner_grow (a : String) :
    ∀ (rest : List (String × String)) (cur : List (String × String))
      (acc : UsualPaths),
      acc.find? (fun p => p.1 = a) = none →
      ((cur ++ rest).map Prod.fst).Nodup →
      UP_fromJSONInner a (rest.map (fun q => (q.1, Json.str q.2)))
        (acc ++ [(a, cur)]) = .ok (acc ++ [(a, cur ++ rest)]) := by
  intro rest
  induction rest with
  | nil => intro cur acc _ _; simp [UP_fromJSONInner]
  | cons bc rest' ih =>
    intro cur acc hacc hnodup
    obtain ⟨b, c⟩ := bc
    simp only [List.map_cons]
    unfold UP_fromJSONInner
    dsimp only
    rw [setUsual_extend acc a b c cur hacc]
    have hbcur : (cur.find? (fun q => q.1 = b)) = none := by
      apply find?_key_none_of_not_mem
      intro hb
      have hnd2 := hnodup
      rw [List.map_append] at hnd2
      exact (List.nodup_append.mp hnd2).2.2 hb (by simp)
    rw [jsSet_append_of_absent cur b c hbcur]
    have := ih (cur ++ [(b, c)]) acc hacc (by
      rw [List.append_assoc]
      simpa using hnodup)
    rw [this, List.append_assoc]
    rfl

theorem UD_fromJSONInner_grow (a : String) :
    ∀ (rest : List (String × String)) (cur : List (String × String))
      (acc : UsualDestinations),
      acc.find? (fun p => p.1 = a) = none →
      ((cur ++ rest).map Prod.fst).Nodup →
      UD_fromJSONInner a (rest.map (fun q => (q.1, Json.str q.2)))
        (acc ++ [(a, cur)]) = .ok (acc ++ [(a, cur ++ rest)]) := by
  intro rest
  induction rest with
  | nil => intro cur acc _ _; simp [UD_fromJSONInner]
  | cons bc rest' ih =>
    intro cur acc hacc hnodup
    obtain ⟨b, c⟩ := bc
    simp only [List.map_cons]
    unfold UD_fromJSONInner
    dsimp only
    rw [setUsual_extend acc a b c cur hacc]
    have hbcur : (cur.find? (fun q => q.1 = b)) = none := by
      apply find?_key_none_of_not_mem
      intro hb
      have hnd2 := hnodup
      rw [List.map_append] at hnd2
      exact (List.nodup_append.mp hnd2).2.2 hb (by simp)
    rw [jsSet_append_of_absent cur b c hbcur]
    have := ih (cur ++ [(b, c)]) acc hacc (by
      rw [List.append_assoc]
      simpa using hnodup)
    rw [this, List.append_assoc]
    rfl

theorem setUsual_fresh (acc : List (String × List (String × String)))
    (a b c : String) (hacc : acc.find? (fun p => p.1 = a) = none) :
    setUsual acc a b c = acc ++ [(a, [(b, c)])] := by
  unfold setUsual
  rw [hacc]
  rfl

theorem UP_fromJSONOuter_roundtrip :
    ∀ (m : UsualPaths) (acc : UsualPaths),
      (m.map Prod.fst).Nodup →
      (∀ p ∈ m, p.2 ≠ [] ∧ (p.2.map Prod.fst).Nodup) →
      (∀ p ∈ m, acc.find? (fun q => q.1 = p.1) = none) →
      UP_fromJSONOuter (m.map (fun p =>
        (p.1, Json.obj (p.2.map (fun q => (q.1, Json.str q.2)))))) acc =
        .ok (acc ++ m) := by
  intro m
  induction m with
  | nil => intro acc _ _ _; simp [UP_fromJSONOuter]
  | cons av rest ih =>
    intro acc hnodup hwf hdisj
    obtain ⟨a, inner⟩ := av
    simp only [List.map_cons]
    unfold UP_fromJSONOuter
    dsimp only
    have hinner : UP_fromJSONInner a (inner.map (fun q => (q.1, Json.str q.2))) acc =
        .ok (acc ++ [(a, inner)]) := by
      obtain ⟨hne, hnd⟩ := hwf (a, inner) (List.mem_cons_self _ _)
      cases hin : inner with
      | nil => exact absurd hin hne
      | cons bc inner' =>
        obtain ⟨b, c⟩ := bc
        simp only [List.map_cons]
        unfold UP_fromJSONInner
        dsimp only
        rw [setUsual_fresh acc a b c (hdisj (a, inner) (List.mem_cons_self _ _))]
        have := UP_fromJSONInner_grow a inner' [(b, c)] acc
          (hdisj (a, inner) (List.mem_cons_self _ _))
          (by rw [hin] at hnd; simpa using hnd)
        rw [this]
        rfl
    rw [hinner]
    dsimp only
    rw [List.map_cons] at hnodup
    have := ih (acc ++ [(a, inner)]) (List.nodup_cons.mp hnodup).2
      (fun p hp => hwf p (List.mem_cons_of_mem _ hp))
      (by
        intro p hp
        rw [List.find?_append, hdisj p (List.mem_cons_of_mem _ hp), Option.none_or,
          List.find?_eq_none]
        intro q hq
        rcases List.mem_singleton.mp hq with rfl
        have : p.1 ≠ a := by
          intro hpk
          exact (List.nodup_cons.mp hnodup).1 (by
            rw [← hpk]
            exact List.mem_map.mpr ⟨p, hp, rfl⟩)
        simpa using this.symm)
    rw [this, List.append_assoc]
    rfl

theorem UD_fromJSONOuter_roundtrip :
    ∀ (m : UsualDestinations) (acc : UsualDestinations),
      (m.map Prod.fst).Nodup →
      (∀ p ∈ m, p.2 ≠ [] ∧ (p.2.map Prod.fst).Nodup) →
      (∀ p ∈ m, acc.find? (fun q => q.1 = p.1) = none) →
      UD_fromJSONOuter (m.map (fun p =>
        (p.1, Json.obj (p.2.map (fun q => (q.1, Json.str q.2)))))) acc =
        .ok (acc ++ m) := by
  intro m
  induction m with
  | nil => intro acc _ _ _; simp [UD_fromJSONOuter]
  | cons av rest ih =>
    intro acc hnodup hwf hdisj
    obtain ⟨a, inner⟩ := av
    simp only [List.map_cons]
    unfold UD_fromJSONOuter
    dsimp only
    have hinner : UD_fromJSONInner a (inner.map (fun q => (q.1, Json.str q.2))) acc =
        .ok (acc ++ [(a, inner)]) := by
      obtain ⟨hne, hnd⟩ := hwf (a, inner) (List.mem_cons_self _ _)
      cases hin : inner with
      | nil => exact absurd hin hne
      | cons bc inner' =>
        obtain ⟨b, c⟩ := bc
        simp only [List.map_cons]
        unfold UD_fromJSONInner
        dsimp only
        rw [setUsual_fresh acc a b c (hdisj (a, inner) (List.mem_cons_self _ _))]
        have := UD_fromJSONInner_grow a inner' [(b, c)] acc
          (hdisj (a, inner) (List.mem_cons_self _ _))
          (by rw [hin] at hnd; simpa using hnd)
        rw [this]
        rfl
    rw [hinner]
    dsimp only
    rw [List.map_cons] at hnodup
    have := ih (acc ++ [(a, inner)]) (List.nodup_cons.mp hnodup).2
      (fun p hp => hwf p (List.mem_cons_of_mem _ hp))
      (by
        intro p hp
        rw [List.find?_append, hdisj p (List.mem_cons_of_mem _ hp), Option.none_or,
          List.find?_eq_none]
        intro q hq
        rcases List.mem_singleton.mp hq with rfl
        have : p.1 ≠ a := by
          intro hpk
          exact (List.nodup_cons.mp hnodup).1 (by
            rw [← hpk]
            exact List.mem_map.mpr ⟨p, hp, rfl⟩)
        simpa using this.symm)
    rw [this, List.append_assoc]
    rfl

theorem MTD_fromJSONAux_error :
    ∀ (kvs : List (String × Json)) (acc : MedianTimeDeltas),
      (∃ p ∈ kvs, isJsNum p.2 = false) →
      ∃ msg, MTD_fromJSONAux kvs acc = .error msg := by
  intro kvs
  induction kvs with
  | nil => intro acc h; simp at h
  | cons kv rest ih =>
    intro acc hbad
    obtain ⟨k, v⟩ := kv
    unfold MTD_fromJSONAux
    cases v with
    | num n =>
      obtain ⟨p, hp, hpbad⟩ := hbad
      rcases List.mem_cons.mp hp with rfl | hp
      · exact absurd hpbad (by simp [isJsNum])
      · exact ih (jsSet acc k n) ⟨p, hp, hpbad⟩
    | null => exact ⟨_, rfl⟩
    | bool b => exact ⟨_, rfl⟩
    | str t => exact ⟨_, rfl⟩
    | arr xs => exact ⟨_, rfl⟩
    | obj es => exact ⟨_, rfl⟩

theorem UP_fromJSONInner_error (a : String) :
    ∀ (inner : List (String × Json)) (acc : UsualPaths),
      (∃ q ∈ inner, isJsStr q.2 = false) →
      ∃ msg, UP_fromJSONInner a inner acc = .error msg := by
  intro inner
  induction inner with
  | nil => intro acc h; simp at h
  | cons kv rest ih =>
    intro acc hbad
    obtain ⟨k, v⟩ := kv
    unfold UP_fromJSONInner
    cases v with
    | str t =>
      obtain ⟨q, hq, hqbad⟩ := hbad
      rcases List.mem_cons.mp hq with rfl | hq
      · exact absurd hqbad (by simp [isJsStr])
      · exact ih (setUsual acc a k t) ⟨q, hq, hqbad⟩
    | null => exact ⟨_, rfl⟩
    | bool b => exact ⟨_, rfl⟩
    | num n => exact ⟨_, rfl⟩
    | arr xs => exact ⟨_, rfl⟩
    | obj es => exact ⟨_, rfl⟩

theorem UD_fromJSONInner_error (a : String) :
    ∀ (inner : List (String × Json)) (acc : UsualDestinations),
      (∃ q ∈ inner, isJsStr q.2 = false) →
      ∃ msg, UD_fromJSONInner a inner acc = .error msg := by
  intro inner
  induction inner with
  | nil => intro acc h; simp at h
  | cons kv rest ih =>
    intro acc hbad
    obtain ⟨k, v⟩ := kv
    unfold UD_fromJSONInner
    cases v with
    | str t =>
      obtain ⟨q, hq, hqbad⟩ := hbad
      rcases List.mem_cons.mp hq with rfl | hq
      · exact absurd hqbad (by simp [isJsStr])
      · exact ih (setUsual acc a k t) ⟨q, hq, hqbad⟩
    | null => exact ⟨_, rfl⟩
    | bool b => exact ⟨_, rfl⟩
    | num n => exact ⟨_, rfl⟩
    | arr xs => exact ⟨_, rfl⟩
    | obj es => exact ⟨_, rfl⟩

theorem UP_fromJSONOuter_error :
    ∀ (kvs : List (String × Json)) (acc : UsualPaths),
      (∃ p ∈ kvs, badNested p.2) →
      ∃ msg, UP_fromJSONOuter kvs acc = .error msg := by
  intro kvs
  induction kvs with
  | nil => intro acc h; simp at h
  | cons kv rest ih =>
    intro acc hbad
    obtain ⟨k, v⟩ := kv
    unfold UP_fromJSONOuter
    cases v with
    | obj inner =>
      cases hres : UP_fromJSONInner k inner acc with
      | error e => exact ⟨e, by dsimp only; rw [hres]⟩
      | ok acc2 =>
        obtain ⟨p, hp, hpbad⟩ := hbad
        rcases List.mem_cons.mp hp with rfl | hp
        · rcases hpbad with hobj | ⟨inner2, hinner2, hleaf⟩
          · exact absurd hobj (by simp [isJsObject])
          · injection hinner2 with hinj
            rw [← hinj] at hleaf
            obtain ⟨msg, hmsg⟩ := UP_fromJSONInner_error k inner acc hleaf
            rw [hmsg] at hres
            exact absurd hres (by simp)
        · obtain ⟨msg, hmsg⟩ := ih acc2 ⟨p, hp, hpbad⟩
          refine ⟨msg, ?_⟩
          dsimp only
          rw [hres]
          exact hmsg
    | null => exact ⟨_, rfl⟩
    | bool b => exact ⟨_, rfl⟩
    | num n => exact ⟨_, rfl⟩
    | str t => exact ⟨_, rfl⟩
    | arr xs => exact ⟨_, rfl⟩

theorem UD_fromJSONOuter_error :
    ∀ (kvs : List (String × Json)) (acc : UsualDestinations),
      (∃ p ∈ kvs, badNested p.2) →
      ∃ msg, UD_fromJSONOuter kvs acc = .error msg := by
  intro kvs
  induction kvs with
  | nil => intro acc h; simp at h
  | cons kv rest ih =>
    intro acc hbad
    obtain ⟨k, v⟩ := kv
    unfold UD_fromJSONOuter
    cases v with
    | obj inner =>
      cases hres : UD_fromJSONInner k inner acc with
      | error e => exact ⟨e, by dsimp only; rw [hres]⟩
      | ok acc2 =>
        obtain ⟨p, hp, hpbad⟩ := hbad
        rcases List.mem_cons.mp hp with rfl | hp
        · rcases hpbad with hobj | ⟨inner2, hinner2, hleaf⟩
          · exact absurd hobj (by simp [isJsObject])
          · injection hinner2 with hinj
            rw [← hinj] at hleaf
            obtain ⟨msg, hmsg⟩ := UD_fromJSONInner_error k inner acc hleaf
            rw [hmsg] at hres
            exact absurd hres (by simp)
        · obtain ⟨msg, hmsg⟩ := ih acc2 ⟨p, hp, hpbad⟩
          refine ⟨msg, ?_⟩
          dsimp only
          rw [hres]
          exact hmsg
    | null => exact ⟨_, rfl⟩
    | bool b => exact ⟨_, rfl⟩
    | num n => exact ⟨_, rfl⟩
    | str t => exact ⟨_, rfl⟩
    | arr xs => exact ⟨_, rfl⟩

/-- **C9.** For each persisted model type, deserializing the serialization
of a model reproduces an equal mapping (under the Map well-formedness
conditions: no duplicate keys, and nested maps nonempty as the builders
guarantee); and `fromJSON` raises a descriptive error whenever the root or,
for the nested types, any inner level is null, an array or not an object,
or any leaf value has the wrong type. -/
theorem models_serialization_roundtrip_and_validation :
    (∀ m : MedianTimeDeltas, (m.map Prod.fst).Nodup →
      MedianTimeDeltas.fromJSON (MedianTimeDeltas.toJSON m) = .ok m) ∧
    (∀ m : UsualPaths, (m.map Prod.fst).Nodup →
      (∀ p ∈ m, p.2 ≠ [] ∧ (p.2.map Prod.fst).Nodup) →
      UsualPaths.fromJSON (UsualPaths.toJSON m) = .ok m) ∧
    (∀ m : UsualDestinations, (m.map Prod.fst).Nodup →
      (∀ p ∈ m, p.2 ≠ [] ∧ (p.2.map Prod.fst).Nodup) →
      UsualDestinations.fromJSON (UsualDestinations.toJSON m) = .ok m) ∧
    (∀ j : Json, isJsObject j = false →
      (∃ msg, MedianTimeDeltas.fromJSON j = .error msg) ∧
      (∃ msg, UsualPaths.fromJSON j = .error msg) ∧
      (∃ msg, UsualDestinations.fromJSON j = .error msg)) ∧
    (∀ kvs : List (String × Json), (∃ p ∈ kvs, isJsNum p.2 = false) →
      ∃ msg, MedianTimeDeltas.fromJSON (Json.obj kvs) = .error msg) ∧
    (∀ kvs : List (String × Json), (∃ p ∈ kvs, badNested p.2) →
      ∃ msg, UsualPaths.fromJSON (Json.obj kvs) = .error msg) ∧
    (∀ kvs : List (String × Json), (∃ p ∈ kvs, badNested p.2) →
      ∃ msg, UsualDestinations.fromJSON (Json.obj kvs) = .error msg) := by
  refine ⟨?_, ?_, ?_, ?_, ?_, ?_, ?_⟩
  · intro m hnd
    unfold MedianTimeDeltas.toJSON MedianTimeDeltas.fromJSON
    dsimp only
    rw [MTD_fromJSONAux_roundtrip m [] hnd (by intro p _; rfl)]
    simp
  · intro m hnd hwf
    unfold UsualPaths.toJSON UsualPaths.fromJSON
    dsimp only
    rw [UP_fromJSONOuter_roundtrip m [] hnd hwf (by intro p _; rfl)]
    simp
  · intro m hnd hwf
    unfold UsualDestinations.toJSON UsualDestinations.fromJSON
    dsimp only
    rw [UD_fromJSONOuter_roundtrip m [] hnd hwf (by intro p _; rfl)]
    simp
  · intro j hj
    cases j with
    | null => exact ⟨⟨_, rfl⟩, ⟨_, rfl⟩, ⟨_, rfl⟩⟩
    | bool b => exact ⟨⟨_, rfl⟩, ⟨_, rfl⟩, ⟨_, rfl⟩⟩
    | num n => exact ⟨⟨_, rfl⟩, ⟨_, rfl⟩, ⟨_, rfl⟩⟩
    | str t => exact ⟨⟨_, rfl⟩, ⟨_, rfl⟩, ⟨_, rfl⟩⟩
    | arr xs => exact ⟨⟨_, rfl⟩, ⟨_, rfl⟩, ⟨_, rfl⟩⟩
    | obj es => exact absurd hj (by simp [isJsObject])
  · intro kvs hbad
    exact MTD_fromJSONAux_error kvs [] hbad
  · intro kvs hbad
    exact UP_fromJSONOuter_error kvs [] hbad
  · intro kvs hbad
    exact UD_fromJSONOuter_error kvs [] hbad

/-- Witness for C9: a singleton median map round-trips, an array root is
rejected by UsualPaths, a null root by UsualDestinations, and a non-number
leaf by MedianTimeDeltas. -/
theorem models_serialization_roundtrip_and_validation_witness :
    MedianTimeDeltas.fromJSON
        (MedianTimeDeltas.toJSON [("Arrived-AAA_1->BBB_1", 300000)]) =
      .ok [("Arrived-AAA_1->BBB_1", 300000)] ∧
    (∃ msg, UsualPaths.fromJSON (Json.arr []) = .error msg) ∧
    (∃ msg, UsualDestinations.fromJSON Json.null = .error msg) ∧
    (∃ msg, MedianTimeDeltas.fromJSON
      (Json.obj [("k", Json.str "oops")]) = .error msg) :=
  ⟨models_serialization_roundtrip_and_validation.1
      [("Arrived-AAA_1->BBB_1", 300000)] (by simp),
   (models_serialization_roundtrip_and_validation.2.2.2.1 (Json.arr []) rfl).2.1,
   (models_serialization_roundtrip_and_validation.2.2.2.1 Json.null rfl).2.2,
   models_serialization_roundtrip_and_validation.2.2.2.2.1
     [("k", Json.str "oops")] ⟨("k", Json.str "oops"), by simp, rfl⟩⟩

end MetroDueTimes
